import Mathlib

/-!
# ZoomBookingV3: booking pipeline

A shallow embedding of `invite.js`, `graph.js` and the two request handlers of
`server.js`.

* JavaScript strings are lists of characters (`Str`).
* External collaborators (Zoom token and meeting creation, Graph client and
  event post, the date parser of dayjs) are the fields of `Ext`; the outcome of
  a call may depend on everything that happened before it.
* Every observable action is appended to a chronological log of `Event`s.
* An awaited call that rejects is `Except.error`; the log survives it.
-/

namespace ZoomBooking

/-- JavaScript strings, as lists of characters. -/
abbrev Str := List Char

/-! ## String primitives -/

/-- The characters removed by `String.prototype.trim` (WhiteSpace and LineTerminator). -/
def isJsSpace (c : Char) : Bool :=
  c.val = 0x09 || c.val = 0x0A || c.val = 0x0B || c.val = 0x0C || c.val = 0x0D ||
  c.val = 0x20 || c.val = 0xA0 || c.val = 0x1680 ||
  (0x2000 ≤ c.val && c.val ≤ 0x200A) ||
  c.val = 0x2028 || c.val = 0x2029 || c.val = 0x202F || c.val = 0x205F ||
  c.val = 0x3000 || c.val = 0xFEFF

/-- The method `trim()`. -/
def trim (s : Str) : Str :=
  ((s.dropWhile isJsSpace).reverse.dropWhile isJsSpace).reverse

/-- The method `toLowerCase()`; letters outside ASCII are left as they are. -/
def toLowerCase (s : Str) : Str :=
  s.map Char.toLower

/-- Splitting on the characters satisfying `p`, as `split(/[...]/)` does: always at least
one piece. -/
def splitOnP (p : Char → Bool) : Str → List Str
  | [] => [[]]
  | c :: cs =>
    match splitOnP p cs with
    | [] => [[]]
    | piece :: rest => if p c then [] :: piece :: rest else (c :: piece) :: rest

/-- The method `join(sep)` of an array of strings. -/
def joinWith (sep : Str) : List Str → Str
  | [] => []
  | [s] => s
  | s :: t :: rest => s ++ sep ++ joinWith sep (t :: rest)

/-- The function `parseEmails`: `(text || '').split(/[,;]/).map(e => e.trim()).filter(Boolean)`. -/
def parseEmails (text : Str) : List Str :=
  ((splitOnP (fun c => c = ',' || c = ';') text).map trim).filter (fun e => e ≠ [])

/-- The attendee list of object-mode `run`:
`participants.split(',').map(e => e.trim()).filter(Boolean)`. -/
def splitAttendees (participants : Str) : List Str :=
  ((splitOnP (fun c => c = ',') participants).map trim).filter (fun e => e ≠ [])

/-! ## Header resolver -/

/-- The object built by `buildHeaderMap`, as an association list whose first match is the
current binding (own properties only). -/
abbrev HeaderMap := List (Str × Nat)

/-- Property read `header[key]`; `none` is `undefined`. -/
def HeaderMap.get (h : HeaderMap) (key : Str) : Option Nat :=
  match h with
  | [] => none
  | (k, i) :: rest => if k = key then some i else HeaderMap.get rest key

/-- Property write `header[key] = i`. -/
def HeaderMap.set (h : HeaderMap) (key : Str) (i : Nat) : HeaderMap :=
  (key, i) :: h

/-- The `forEach` of `buildHeaderMap`, from index `i` on. A cell is `none` when it is
`null` or `undefined`, and otherwise carries its `toString()`. -/
def buildHeaderMapFrom (i : Nat) : List (Option Str) → HeaderMap → HeaderMap
  | [], map => map
  | none :: vs, map => buildHeaderMapFrom (i + 1) vs map
  | some v :: vs, map =>
    let key := toLowerCase (trim v)
    buildHeaderMapFrom (i + 1) vs (if key ≠ [] then map.set key i else map)

/-- The function `buildHeaderMap(row)`: `values` are the cells of columns 1, 2, ... of the row (the
array `row.values` has a hole at index 0, which `forEach` does not visit). -/
def buildHeaderMap (values : List (Option Str)) : HeaderMap :=
  buildHeaderMapFrom 1 values []

/-- The function `col(header, name)`: `header[name.toLowerCase()]`. -/
def col (header : HeaderMap) (name : Str) : Option Nat :=
  header.get (toLowerCase name)

/-! ## Values, cells and worksheets -/

/-- The JavaScript values a cell or a row field can hold. Numbers are whole numbers or
`NaN`; `obj` stands for any other object (rich text, formula, hyperlink, error). -/
inductive JsVal where
  | undefined
  | null
  | bool (b : Bool)
  | num (n : Int)
  | nan
  | str (s : Str)
  | obj
  deriving DecidableEq, Repr

/-- A non-empty run of decimal digits, read as a number. -/
def digitsToNat (acc : Nat) : Str → Option Nat
  | [] => some acc
  | c :: cs => if c.isDigit then digitsToNat (10 * acc + (c.toNat - 48)) cs else none

/-- Numeric reading of a string (`+s`): whitespace is trimmed, the empty string is 0, an
optionally signed run of digits is its value, anything else is `NaN` (`none`). -/
def strToNumber (s : Str) : Option Int :=
  match trim s with
  | [] => some 0
  | '-' :: d :: ds => (digitsToNat 0 (d :: ds)).map (fun n => -(n : Int))
  | '+' :: d :: ds => (digitsToNat 0 (d :: ds)).map (fun n => (n : Int))
  | d :: ds => (digitsToNat 0 (d :: ds)).map (fun n => (n : Int))

/-- Unary plus, `+v`; `none` is `NaN`. -/
def toNumber : JsVal → Option Int
  | .undefined => none
  | .null => some 0
  | .bool b => some (if b then 1 else 0)
  | .num n => some n
  | .nan => none
  | .str s => strToNumber s
  | .obj => none

/-- The expression `+v || 60`. -/
def numberOr60 (v : JsVal) : Int :=
  match toNumber v with
  | none => 60
  | some n => if n = 0 then 60 else n

/-- A worksheet cell: its `value` and its `text`. -/
structure Cell where
  value : JsVal
  text : Str
  deriving DecidableEq, Repr

/-- A cell that was never written: `value` is `null`, `text` is empty. -/
def emptyCell : Cell := ⟨.null, []⟩

/-- A worksheet row: the cells of columns 1, 2, ...; columns beyond the list are empty. -/
abbrev Row := List Cell

/-- The `Bookings` sheet: the values of row 1 (see `buildHeaderMapFrom`), the rows
2 .. `rowCount`, and `columnCount`. -/
structure Worksheet where
  header : List (Option Str)
  rows : List Row
  columnCount : Nat

/-- The call `row.getCell(c)` where `c` comes from a header lookup: the library throws when `c` is
`undefined` (the "A Cell needs a Row" error that `server.js` guards against) or 0. -/
def getCell (r : Row) (c : Option Nat) : Except Str Cell :=
  match c with
  | none => .error "A Cell needs a Row".toList
  | some 0 => .error "0 is out of bounds. Excel supports columns from 1 to 16384".toList
  | some (n + 1) => .ok (r.getD n emptyCell)

/-- The property `row.hasValues`: some cell is not of the null type. -/
def hasValues (r : Row) : Bool :=
  r.any (fun c => c.value ≠ .null)

/-- The test `r.values.every(v => v === null || v === undefined || v === '')`. -/
def isEmptyRow (r : Row) : Bool :=
  r.all (fun c => c.value = .null || c.value = .undefined || c.value = .str [])

/-! ## Date-times -/

/-- Left padding with `'0'` up to `width`, `padStart(width, '0')`. -/
def padStart (width : Nat) (s : Str) : Str :=
  List.replicate (width - s.length) '0' ++ s

/-- Decimal text of an integer, `String(n)`. -/
def intToStr (n : Int) : Str :=
  match n with
  | Int.ofNat k => (Nat.toDigits 10 k)
  | Int.negSucc k => '-' :: Nat.toDigits 10 (k + 1)

/-- Calendar fields of a wall-clock instant. -/
structure Civil where
  year : Int
  month : Int
  day : Int
  hour : Int
  minute : Int
  second : Int
  deriving DecidableEq, Repr

/-- Year, month and day of the day number `z` (days since 1970-01-01) in the proleptic
Gregorian calendar. -/
def civilFromDays (z : Int) : Int × Int × Int :=
  let z1 := z + 719468
  let era := z1 / 146097
  let doe := z1 % 146097
  let yoe := (doe - doe / 1460 + doe / 36524 - doe / 146096) / 365
  let doy := doe - (365 * yoe + yoe / 4 - yoe / 100)
  let mp := (5 * doy + 2) / 153
  let d := doy - (153 * mp + 2) / 5 + 1
  let m := if mp < 10 then mp + 3 else mp - 9
  let y := yoe + era * 400
  (if m ≤ 2 then y + 1 else y, m, d)

/-- Day number of a calendar date; the inverse of `civilFromDays`. -/
def daysFromCivil (y m d : Int) : Int :=
  let y1 := if m ≤ 2 then y - 1 else y
  let era := y1 / 400
  let yoe := y1 % 400
  let mp := if m > 2 then m - 3 else m + 9
  let doy := (153 * mp + 2) / 5 + d - 1
  let doe := yoe * 365 + yoe / 4 - yoe / 100 + doy
  era * 146097 + doe - 719468

/-- Year of the era of the day `doe` of a 400-year era, on natural numbers. -/
def yearOfEra (doe : Nat) : Nat :=
  (doe - doe / 1460 + doe / 36524 - doe / 146096) / 365

/-- First day of the year `y` of an era. -/
def yearStart (y : Nat) : Nat := 365 * y + y / 4 - y / 100

/-- Modelled from the spec: dayjs-setup.js, the configured dayjs, is not among the
sources. A dayjs object in zone `Asia/Beirut` is `some t`, with `t` the wall-clock seconds
since 1970-01-01T00:00:00 in that zone, or `none` when invalid; the spec has start and end
as wall-clock times of the fixed zone and `end = start + durationMinutes`. -/
abbrev DateTime := Option Int

/-- Calendar fields of wall-clock seconds. -/
def toCivil (t : Int) : Civil :=
  let days := t / 86400
  let secs := t % 86400
  let ymd := civilFromDays days
  ⟨ymd.1, ymd.2.1, ymd.2.2, secs / 3600, secs % 3600 / 60, secs % 60⟩

/-- Wall-clock seconds of calendar fields. -/
def ofCivil (c : Civil) : Int :=
  daysFromCivil c.year c.month c.day * 86400 + c.hour * 3600 + c.minute * 60 + c.second

/-- Two-digit field, `padStart(2, '0')`. -/
def two (n : Int) : Str := padStart 2 (intToStr n)

/-- Calendar fields written as `YYYY-MM-DDTHH:mm:ss`. -/
def isoCivil (c : Civil) : Str :=
  padStart 4 (intToStr c.year) ++ '-' :: two c.month ++ '-' :: two c.day ++
    'T' :: two c.hour ++ ':' :: two c.minute ++ ':' :: two c.second

/-- The call `format('YYYY-MM-DDTHH:mm:ss')`. -/
def formatDateTime (d : DateTime) : Str :=
  match d with
  | none => "Invalid Date".toList
  | some t => isoCivil (toCivil t)

/-- The call `format('YYYY-MM-DD HH:mm')`. -/
def formatDayTime (d : DateTime) : Str :=
  match d with
  | none => "Invalid Date".toList
  | some t =>
    let c := toCivil t
    padStart 4 (intToStr c.year) ++ '-' :: two c.month ++ '-' :: two c.day ++
      ' ' :: two c.hour ++ ':' :: two c.minute

/-- The call `add(n, 'minute')`; adding `NaN` gives an invalid date. -/
def addMinutes (d : DateTime) (n : Option Int) : DateTime :=
  match d, n with
  | some t, some k => some (t + 60 * k)
  | _, _ => none

/-- Value of a decimal digit character. -/
def digitVal (c : Char) : Option Int :=
  if c.isDigit then some ((c.toNat : Int) - 48) else none

/-- A date parser for the one form `YYYY-MM-DDTHH:mm:ss` (the form that `format` writes),
with fields in their calendar ranges; an instance of `Ext.tz`. -/
def tzIso (s : Str) : DateTime :=
  match s with
  | [y1, y2, y3, y4, '-', m1, m2, '-', d1, d2, 'T', h1, h2, ':', n1, n2, ':', s1, s2] =>
    match digitVal y1, digitVal y2, digitVal y3, digitVal y4, digitVal m1, digitVal m2,
        digitVal d1, digitVal d2, digitVal h1, digitVal h2, digitVal n1, digitVal n2,
        digitVal s1, digitVal s2 with
    | some a, some b, some c, some d, some e, some f, some g, some h, some i, some j,
        some k, some l, some m, some n =>
      let c : Civil := ⟨1000 * a + 100 * b + 10 * c + d, 10 * e + f, 10 * g + h,
        10 * i + j, 10 * k + l, 10 * m + n⟩
      if 1 ≤ c.month ∧ c.month ≤ 12 ∧ 1 ≤ c.day ∧ c.hour < 24 ∧ c.minute < 60 ∧ c.second < 60
          ∧ toCivil (ofCivil c) = c then
        some (ofCivil c)
      else none
    | _, _, _, _, _, _, _, _, _, _, _, _, _, _ => none
  | _ => none

/-! ## Collaborators, events and actions -/

/-- The arguments of `zCreate(token, topic, startISO, duration, agenda, zoomAccount)`. -/
structure ZoomReq where
  token : Str
  topic : Str
  startISO : Str
  duration : JsVal
  agenda : Str
  zoomAccount : Option Str
  deriving DecidableEq, Repr

/-- The `row` argument of `sendInvite`, with the fields that `sendInvite` reads. -/
structure InviteRow where
  Topic : Str
  StartUTC : Str
  DurationMin : JsVal
  TeamName : Str
  Location : Option Str
  meetingType : Option Str
  deriving DecidableEq, Repr

/-- The `eventBody` posted by `sendInvite`. -/
structure EventBody where
  subject : Str
  content : Str
  startDateTime : Str
  startTimeZone : Str
  endDateTime : Str
  endTimeZone : Str
  locationDisplayName : Str
  attendees : List Str
  deriving DecidableEq, Repr

/-- The argument of object-mode `run`: `{ ...row, teamName, meetingType, location }`. An
absent `meetingType` or `location` of the request body is the empty string. -/
structure RunOpts where
  team : Str
  teamName : Str
  topic : Str
  dateChosen : Str
  durationMin : JsVal
  participants : Str
  zoomAccount : Option Str
  meetingType : Str
  location : Str
  deriving DecidableEq, Repr

/-- Observable actions, logged in the order in which they happen. -/
inductive Event where
  | zToken
  | graphClient
  | zCreate (req : ZoomReq)
  | setCell (row : Nat) (column : Nat) (value : Str)
  | commit (row : Nat)
  | sendInvite (row : Option InviteRow) (joinUrl : Str) (attendees : List Str)
  | post (host : Option Str) (body : EventBody)
  | warn (row : Nat) (dateChosen : Str)
  | logOk (topic : Str)
  | writeFile
  | run (opts : RunOpts)
  deriving DecidableEq, Repr

/-- The external collaborators and the environment. Each call is logged first, and its
outcome is a function of the log up to and including that call. -/
structure Ext where
  zToken : List Event → Except Str Str
  graphClient : List Event → Except Str Unit
  zCreate : List Event → Except Str Str
  post : List Event → Except Str Unit
  tz : Str → DateTime
  outlookHost : Option Str

/-- An action: from the log so far to an outcome and the extended log. -/
abbrev Act (α : Type) := List Event → Except Str α × List Event

/-- Return a value. -/
def Act.ret {α : Type} (a : α) : Act α := fun log => (.ok a, log)

/-- Throw an error. -/
def Act.fail {α : Type} (e : Str) : Act α := fun log => (.error e, log)

/-- Sequencing: an error of the first action ends the sequence. -/
def Act.bind {α β : Type} (m : Act α) (f : α → Act β) : Act β := fun log =>
  match m log with
  | (.ok a, log1) => f a log1
  | (.error e, log1) => (.error e, log1)

/-- An outcome computed without effect (a cell read that may throw). -/
def Act.lift {α : Type} (x : Except Str α) : Act α := fun log => (x, log)

/-- Log an event. -/
def Act.emit (e : Event) : Act Unit := fun log => (.ok (), log ++ [e])

/-- Log the call `e` and ask the collaborator for its outcome. -/
def Act.call {α : Type} (e : Event) (f : List Event → Except Str α) : Act α := fun log =>
  (f (log ++ [e]), log ++ [e])

/-- JavaScript truthiness of a string. -/
def truthy (s : Str) : Bool := decide (s ≠ [])

/-- JavaScript truthiness of a string that may be `undefined`. -/
def truthyOpt : Option Str → Bool
  | none => false
  | some s => truthy s

/-- The expression `text || dflt`. -/
def orDefault (text : Str) (dflt : Option Str) : Option Str :=
  if truthy text then some text else dflt

/-! ## Invite composer (`graph.js`) -/

/-- The `locationLine` of `sendInvite`. -/
def locationLine (row : InviteRow) (joinUrl : Str) : Str :=
  let isZoom : Bool :=
    decide (row.Location = some "Zoom".toList) || decide (row.meetingType = some "zoom".toList)
  if isZoom && truthy joinUrl then
    "<br>Zoom Link: <a href=\"".toList ++ joinUrl ++ "\">".toList ++ joinUrl ++ "</a><br>".toList
  else if !isZoom && truthyOpt row.Location then
    "<br>Location: ".toList ++ row.Location.getD [] ++ "<br>".toList
  else []

/-- The `inviteBody` of `sendInvite`. -/
def inviteBody (start : DateTime) (row : InviteRow) (joinUrl : Str) : Str :=
  "Dear ".toList ++ row.TeamName ++
    ",<br>You are invited to a meeting for your team.<br>Meeting Day & Time: ".toList ++
    formatDayTime start ++ locationLine row joinUrl ++
    "<br>Best regards,<br>Berytech Team".toList

/-- The `eventBody` of `sendInvite`. -/
def buildEvent (ext : Ext) (row : InviteRow) (joinUrl : Str) (attendees : List Str) :
    EventBody :=
  let start := ext.tz row.StartUTC
  { subject := row.Topic
    content := inviteBody start row joinUrl
    startDateTime := formatDateTime start
    startTimeZone := "Asia/Beirut".toList
    endDateTime := formatDateTime (addMinutes start (toNumber row.DurationMin))
    endTimeZone := "Asia/Beirut".toList
    locationDisplayName := if truthyOpt row.Location then row.Location.getD [] else "Zoom".toList
    attendees := attendees }

/-- The function `sendInvite(graph, row, joinUrl, attendees, outlookHost)`. With `row` undefined the
first statement, which reads `row.StartUTC`, throws. -/
def sendInvite (ext : Ext) (row : Option InviteRow) (joinUrl : Str) (attendees : List Str)
    (outlookHost : Option Str) : Act Unit :=
  Act.bind (Act.emit (.sendInvite row joinUrl attendees)) fun _ =>
  match row with
  | none => Act.fail "Cannot read properties of undefined (reading 'StartUTC')".toList
  | some row => Act.call (.post outlookHost (buildEvent ext row joinUrl attendees)) ext.post

/-! ## Object-mode `run` -/

/-- The function `run(opts)` called with an object (lines 190-215 of `invite.js`). -/
def runObject (ext : Ext) (o : RunOpts) : Act Unit :=
  let startISO := formatDateTime (ext.tz o.dateChosen)
  Act.bind (Act.call .zToken ext.zToken) fun token =>
  Act.bind (Act.call .graphClient ext.graphClient) fun _ =>
  Act.bind
    (if o.meetingType ≠ "in-person".toList then
      Act.call (.zCreate ⟨token, o.topic, startISO, o.durationMin, o.topic, o.zoomAccount⟩)
        ext.zCreate
    else Act.ret []) fun joinUrl =>
  sendInvite ext
    (some
      { Topic := o.topic
        StartUTC := startISO
        DurationMin := o.durationMin
        TeamName := o.teamName
        Location :=
          if truthy o.location then some o.location
          else some (if o.meetingType = "in-person".toList then "In person".toList
            else "Zoom".toList)
        meetingType := none })
    joinUrl (splitAttendees o.participants) ext.outlookHost

/-- A row of an upload session, as pushed by `POST /upload`. -/
structure StoredRow where
  team : Str
  teamName : Str
  topic : Str
  dateChosen : Str
  durationMin : JsVal
  zoomAccount : Option Str
  participants : Str
  meetingType : Str
  missing : List Str
  deriving DecidableEq, Repr

/-- The object `{ ...row, teamName: row.teamName, meetingType, location }`. -/
def optsOf (row : StoredRow) (meetingType location : Str) : RunOpts :=
  { team := row.team
    teamName := row.teamName
    topic := row.topic
    dateChosen := row.dateChosen
    durationMin := row.durationMin
    participants := row.participants
    zoomAccount := row.zoomAccount
    meetingType := meetingType
    location := location }

/-! ## Validation (`POST /upload`) -/

/-- The session store `uploads`. -/
abbrev Uploads := List (Str × List StoredRow)

/-- Property read `uploads[id]`. -/
def Uploads.get (u : Uploads) (id : Str) : Option (List StoredRow) :=
  match u with
  | [] => none
  | (k, rows) :: rest => if k = id then some rows else Uploads.get rest id

/-- The helper `getCellText(name, row)`: the text of the named cell, or `''` when the header has no
such column. -/
def getCellText (header : HeaderMap) (name : Str) (row : Row) : Str :=
  match col header name with
  | none => []
  | some 0 => []
  | some (n + 1) => (row.getD n emptyCell).text

/-- The helper `getCellValue(name, row)`: the value of the named cell, or `undefined` when the header
has no such column. -/
def getCellValue (header : HeaderMap) (name : Str) (row : Row) : JsVal :=
  match col header name with
  | none => .undefined
  | some 0 => .undefined
  | some (n + 1) => (row.getD n emptyCell).value

/-- The `essentials` object of the upload handler, in insertion order. -/
def essentials (topic dateChosen team : Str) (zoomAccount : Option Str)
    (participants : List Str) : List (Str × Option Str) :=
  [ ("Meeting Name".toList, some topic),
    ("Date Chosen".toList, some dateChosen),
    ("Team Invitees".toList, some team),
    ("Zoom Account to book from".toList, zoomAccount),
    ("Invitees".toList,
      some (if participants.length > 0 then joinWith ", ".toList participants else [])) ]

/-- The list `Object.entries(essentials).filter(([k, v]) => !v).map(([k]) => k)`. -/
def missingOf (ess : List (Str × Option Str)) : List Str :=
  (ess.filter (fun kv => !truthyOpt kv.2)).map (fun kv => kv.1)

/-- What the upload loop accumulates. -/
structure UploadState where
  rows : List StoredRow
  missingFields : Bool
  filledRows : Nat
  deriving DecidableEq, Repr

/-- The participant list of the upload handler: the six columns read with `getCellText`,
joined with `','` and parsed. -/
def uploadParticipants (header : HeaderMap) (r : Row) : List Str :=
  parseEmails (joinWith ",".toList
    [ getCellText header "team invitees".toList r,
      getCellText header "added invitee 1".toList r,
      getCellText header "added invitee 2".toList r,
      getCellText header "added invitee 3".toList r,
      getCellText header "added invitee 4".toList r,
      getCellText header "email from form".toList r ])

/-- The object that the upload loop pushes for a row (lines 57-94 of `server.js`). -/
def uploadRecord (ext : Ext) (header : HeaderMap) (r : Row) : StoredRow :=
  let topic := getCellText header "meeting name".toList r
  let teamName := getCellText header "Team Name".toList r
  let dateChosen := getCellText header "date chosen".toList r
  let team := getCellText header "team invitees".toList r
  let zoomAccount :=
    orDefault (getCellText header "Zoom Account to book from".toList r) ext.outlookHost
  let durationMin := getCellValue header "length of meeting(minutes)".toList r
  let meetingType :=
    let t := toLowerCase (getCellText header "meeting type".toList r)
    if truthy t then t else "zoom".toList
  let participants := uploadParticipants header r
  { team := team
    teamName := teamName
    topic := topic
    dateChosen := dateChosen
    durationMin := durationMin
    zoomAccount := zoomAccount
    participants := joinWith ", ".toList participants
    meetingType := meetingType
    missing := missingOf (essentials topic dateChosen team zoomAccount participants) }

/-- The body of the upload loop for one row that is neither row 2 nor empty: `filledRows`
is counted, and the row is pushed unless it is already booked. -/
def uploadRow (ext : Ext) (header : HeaderMap) (r : Row) (st : UploadState) : UploadState :=
  let row := uploadRecord ext header r
  let st1 : UploadState :=
    if truthy row.topic || truthy row.dateChosen || truthy row.team || truthyOpt row.zoomAccount
        || decide ((uploadParticipants header r).length > 0) then
      { st with filledRows := st.filledRows + 1 }
    else st
  if toLowerCase (getCellText header "meeting booked".toList r) = "yes".toList then st1
  else
    { rows := st1.rows ++ [row]
      missingFields := if row.missing.length ≠ 0 then true else st1.missingFields
      filledRows := st1.filledRows }

/-- The loop `for (let i = 2; i <= ws.rowCount; i++)` of the upload handler, from row `i`
on; it ends at the first row without values. -/
def uploadLoop (ext : Ext) (header : HeaderMap) : Nat → List Row → UploadState → UploadState
  | _, [], st => st
  | i, r :: rest, st =>
    if i = 2 then uploadLoop ext header (i + 1) rest st
    else if !hasValues r then st
    else if isEmptyRow r then st
    else uploadLoop ext header (i + 1) rest (uploadRow ext header r st)

/-- The validation phase of `POST /upload`. -/
def validate (ext : Ext) (ws : Worksheet) : UploadState :=
  uploadLoop ext (buildHeaderMap ws.header) 2 ws.rows ⟨[], false, 0⟩

/-- The assignment `uploads[name] = rows` of `POST /upload`. -/
def upload (ext : Ext) (uploads : Uploads) (name : Str) (ws : Worksheet) : Uploads :=
  (name, (validate ext ws).rows) :: uploads

/-! ## Command-line batch (`invite.js`) -/

/-- The six participant columns read with `getCell`, joined with `','` and parsed. -/
def cliParticipants (header : HeaderMap) (r : Row) : Except Str (List Str) :=
  (getCell r (col header "team invitees".toList)).bind fun a =>
  (getCell r (col header "added invitee 1".toList)).bind fun b =>
  (getCell r (col header "added invitee 2".toList)).bind fun c =>
  (getCell r (col header "added invitee 3".toList)).bind fun d =>
  (getCell r (col header "added invitee 4".toList)).bind fun e =>
  (getCell r (col header "email from form".toList)).bind fun f =>
  .ok (parseEmails (joinWith ",".toList [a.text, b.text, c.text, d.text, e.text, f.text]))

/-- The assignment `r.getCell(c).value = v` on row `i`; it throws as `getCell` does. -/
def setCellValue (i : Nat) (c : Option Nat) (v : Str) : Act Unit :=
  match c with
  | none => Act.fail "A Cell needs a Row".toList
  | some 0 => Act.fail "0 is out of bounds. Excel supports columns from 1 to 16384".toList
  | some (n + 1) => Act.emit (.setCell i (n + 1) v)

/-- The write-back `r.getCell(header['joinurl']).value = zoom.join_url;
r.getCell(col(header, 'meeting booked')).value = 'yes'; r.commit()`. -/
def writeBack (header : HeaderMap) (i : Nat) (joinUrl : Str) : Act Unit :=
  Act.bind (setCellValue i (header.get "joinurl".toList) joinUrl) fun _ =>
  Act.bind (setCellValue i (col header "meeting booked".toList) "yes".toList) fun _ =>
  Act.emit (.commit i)

/-- One iteration (`i ≠ 2`) of the loop of the top-level block (lines 72-114). -/
def cliRow (ext : Ext) (header : HeaderMap) (token : Str) (i : Nat) (r : Row) : Act Unit :=
  Act.bind (Act.lift (getCell r (col header "meeting booked".toList))) fun booked =>
  if toLowerCase booked.text = "yes".toList then Act.ret ()
  else
  Act.bind (Act.lift (getCell r (col header "meeting name".toList))) fun topic =>
  Act.bind (Act.lift (getCell r (col header "date chosen".toList))) fun dateChosen =>
  let dateObj := ext.tz dateChosen.text
  if dateObj.isNone then Act.emit (.warn i dateChosen.text)
  else
  let startISO := formatDateTime dateObj
  Act.bind (Act.lift (getCell r (col header "length of meeting(minutes)".toList))) fun len =>
  let durationMin := numberOr60 len.value
  Act.bind (Act.lift (getCell r (col header "meeting name for invite".toList))) fun agenda =>
  Act.bind (Act.lift (getCell r (col header "Zoom Account to book from".toList))) fun acct =>
  let zoomAccount := orDefault acct.text ext.outlookHost
  Act.bind (Act.lift (cliParticipants header r)) fun participants =>
  Act.bind (Act.call
    (.zCreate ⟨token, topic.text, startISO, .num durationMin, agenda.text, zoomAccount⟩)
    ext.zCreate) fun joinUrl =>
  Act.bind (writeBack header i joinUrl) fun _ =>
  Act.bind (Act.lift (getCell r (col header "Team Name".toList))) fun teamName =>
  Act.bind (Act.lift (getCell r (col header "team invitees".toList))) fun _ =>
  Act.bind (sendInvite ext
    (some
      { Topic := topic.text
        StartUTC := startISO
        DurationMin := .num durationMin
        TeamName := teamName.text
        Location := none
        meetingType := none })
    joinUrl participants ext.outlookHost) fun _ =>
  Act.emit (.logOk topic.text)

/-- One iteration (`i ≠ 2`) of the loop of `run` called with a path (lines 138-184). The
call `sendInvite({ ... })` passes one argument, so its `row` is undefined. -/
def fileRow (ext : Ext) (header : HeaderMap) (token : Str) (i : Nat) (r : Row) : Act Unit :=
  Act.bind (Act.lift (getCell r (col header "meeting booked".toList))) fun booked =>
  if toLowerCase booked.text = "yes".toList then Act.ret ()
  else
  Act.bind (Act.lift (getCell r (col header "meeting name".toList))) fun topic =>
  Act.bind (Act.lift (getCell r (col header "date chosen".toList))) fun dateChosen =>
  let dateObj := ext.tz dateChosen.text
  if dateObj.isNone then Act.emit (.warn i dateChosen.text)
  else
  let startISO := formatDateTime dateObj
  Act.bind (Act.lift (getCell r (col header "length of meeting(minutes)".toList))) fun len =>
  let durationMin := numberOr60 len.value
  Act.bind (Act.lift (getCell r (col header "meeting name for invite".toList))) fun agenda =>
  Act.bind (Act.lift (getCell r (col header "Zoom Account to book from".toList))) fun acct =>
  let zoomAccount := orDefault acct.text ext.outlookHost
  Act.bind (Act.lift (cliParticipants header r)) fun _ =>
  Act.bind (Act.lift (getCell r (col header "meeting type".toList))) fun _ =>
  Act.bind (Act.lift (getCell r (col header "location".toList))) fun _ =>
  Act.bind (Act.call
    (.zCreate ⟨token, topic.text, startISO, .num durationMin, agenda.text, zoomAccount⟩)
    ext.zCreate) fun joinUrl =>
  Act.bind (writeBack header i joinUrl) fun _ =>
  Act.bind (Act.lift (getCell r (col header "team".toList))) fun _ =>
  Act.bind (sendInvite ext none [] [] none) fun _ =>
  Act.emit (.logOk topic.text)

/-- The loop `for (let i = 2; i <= ws.rowCount; i++)` of either batch, from row `i` on;
row 2 is skipped, and an error thrown by an iteration leaves the loop. -/
def batchLoop (rowStep : Nat → Row → Act Unit) : Nat → List Row → Act Unit
  | _, [] => Act.ret ()
  | i, r :: rest =>
    if i = 2 then batchLoop rowStep (i + 1) rest
    else Act.bind (rowStep i r) fun _ => batchLoop rowStep (i + 1) rest

/-- The test `!header['joinurl']`. -/
def lacksJoinUrl (header : HeaderMap) : Bool :=
  match header.get "joinurl".toList with
  | none => true
  | some 0 => true
  | some (_ + 1) => false

/-- The header map of a batch: that of row 1, with `joinurl` bound to
`ws.columnCount + 1` when row 1 lacks it. -/
def batchHeader (ws : Worksheet) : HeaderMap :=
  if lacksJoinUrl (buildHeaderMap ws.header) then
    (buildHeaderMap ws.header).set "joinurl".toList (ws.columnCount + 1)
  else buildHeaderMap ws.header

/-- A batch over an opened worksheet: header map, token, graph client, the `JoinURL`
header cell written when the column is new, the loop, and `writeFile` when the loop ends
without error. -/
def batch (ext : Ext) (rowStep : HeaderMap → Str → Nat → Row → Act Unit) (ws : Worksheet) :
    Act Unit :=
  Act.bind (Act.call .zToken ext.zToken) fun token =>
  Act.bind (Act.call .graphClient ext.graphClient) fun _ =>
  Act.bind
    (if lacksJoinUrl (buildHeaderMap ws.header) then
      Act.emit (.setCell 1 (ws.columnCount + 1) "JoinURL".toList)
     else Act.ret ()) fun _ =>
  Act.bind (batchLoop (rowStep (batchHeader ws) token) 2 ws.rows) fun _ =>
  Act.emit .writeFile

/-- The top-level block of `invite.js` (lines 55-118) on the sheet of the given file. -/
def cliMain (ext : Ext) (ws : Worksheet) : Act Unit :=
  batch ext (cliRow ext) ws

/-- The function `run(path)` (lines 121-189) on the sheet of the given file. -/
def runFile (ext : Ext) (ws : Worksheet) : Act Unit :=
  batch ext (fileRow ext) ws

/-- The argument of `run`: a document path, here the sheet it holds, or a row object. -/
inductive RunArg where
  | file (ws : Worksheet)
  | object (opts : RunOpts)

/-- The exported `run(opts)`; a call with an object is logged as `Event.run`. -/
def run (ext : Ext) : RunArg → Act Unit
  | .file ws => runFile ext ws
  | .object o => Act.bind (Act.emit (.run o)) fun _ => runObject ext o

/-! ## Commit step (`POST /process`) -/

/-- The counters of `POST /process`. -/
structure Tally where
  sent : Nat
  failed : Nat
  errors : List (StoredRow × Str)
  deriving DecidableEq, Repr

/-- The loop `for (const row of rows)` of `POST /process`. -/
def processRows (ext : Ext) (meetingType location : Str) :
    List StoredRow → Tally → List Event → Tally × List Event
  | [], t, log => (t, log)
  | row :: rest, t, log =>
    if row.missing.length ≠ 0 then processRows ext meetingType location rest t log
    else
      match run ext (.object (optsOf row meetingType location)) log with
      | (.ok _, log1) =>
        processRows ext meetingType location rest { t with sent := t.sent + 1 } log1
      | (.error e, log1) =>
        processRows ext meetingType location rest
          { t with failed := t.failed + 1, errors := t.errors ++ [(row, e)] } log1

/-- The handler of `POST /process`: `none` is the 400 response "Session expired". -/
def process (ext : Ext) (uploads : Uploads) (id meetingType location : Str)
    (log : List Event) : Option Tally × List Event :=
  match uploads.get id with
  | none => (none, log)
  | some rows =>
    let r := processRows ext meetingType location rows ⟨0, 0, []⟩ log
    (some r.1, r.2)

/-! ## Observations on logs and outcomes -/

/-- The event is a call of object-mode `run`. -/
def Event.isRun : Event → Bool
  | .run _ => true
  | _ => false

/-- The event is a provisioning call (`zCreate`). -/
def Event.isProvision : Event → Bool
  | .zCreate _ => true
  | _ => false

/-- The event is an invite call: `sendInvite` is entered, or the event is posted. -/
def Event.isInvite : Event → Bool
  | .sendInvite _ _ _ => true
  | .post _ _ => true
  | _ => false

/-- The event writes a cell or commits a row. -/
def Event.isWrite : Event → Bool
  | .setCell _ _ _ => true
  | .commit _ => true
  | _ => false

/-- The arguments of the calls of object-mode `run` in a log, in order. -/
def runCalls (log : List Event) : List RunOpts :=
  log.filterMap (fun e => match e with | .run o => some o | _ => none)

/-- The durations passed to `zCreate` and the end date-times posted, in log order. -/
def durationsAndEnds (log : List Event) : List (JsVal × Str) :=
  log.filterMap (fun e =>
    match e with
    | .zCreate req => some (req.duration, [])
    | .post _ body => some (.undefined, body.endDateTime)
    | _ => none)

/-- A stored row is ready: its missing list is empty. -/
def isReady (row : StoredRow) : Bool := row.missing.length = 0

/-- What calling `run` on each of the given rows in turn returns, every call starting from
the log that the previous call left, whatever that call returned. -/
def runOutcomes (ext : Ext) (meetingType location : Str) :
    List StoredRow → List Event → List (StoredRow × Except Str Unit)
  | [], _ => []
  | row :: rest, log =>
    let r := run ext (.object (optsOf row meetingType location)) log
    (row, r.1) :: runOutcomes ext meetingType location rest r.2

/-- The call succeeded. -/
def succeeded (r : StoredRow × Except Str Unit) : Bool :=
  match r.2 with
  | .ok _ => true
  | .error _ => false

/-- The row and message of a call that threw. -/
def failureOf (r : StoredRow × Except Str Unit) : Option (StoredRow × Str) :=
  match r.2 with
  | .ok _ => none
  | .error e => some (r.1, e)

/-- The row's `Meeting Booked` cell exists and its text is `yes` up to letter case. -/
def bookedYes (header : HeaderMap) (r : Row) : Bool :=
  match col header "meeting booked".toList with
  | some (n + 1) => toLowerCase (r.getD n emptyCell).text = "yes".toList
  | _ => false

/-- The action only appends to the log, and every event it appends satisfies `P`. -/
def Act.Emits {α : Type} (P : Event → Prop) (m : Act α) : Prop :=
  ∀ log, ∃ tail, (m log).2 = log ++ tail ∧ ∀ e ∈ tail, P e

/-- What one iteration of a command-line batch on row `i` may append to the log `log`:
nothing that provisions, invites or writes (the row is skipped, or a cell read throws); or
one provisioning call that fails and nothing else; or a provisioning call that returns
`url`, then the join-url cell, the booked cell and the commit of row `i`, then events that
neither provision nor write (the invite is among these). -/
def RowTrace (ext : Ext) (header : HeaderMap) (log : List Event) (i : Nat)
    (tail : List Event) : Prop :=
  (∀ e ∈ tail, e.isProvision = false ∧ e.isInvite = false ∧ e.isWrite = false)
  ∨ (∃ req err, tail = [.zCreate req] ∧ ext.zCreate (log ++ [.zCreate req]) = .error err)
  ∨ (∃ req url j k rest, ext.zCreate (log ++ [.zCreate req]) = .ok url
      ∧ header.get "joinurl".toList = some j ∧ col header "meeting booked".toList = some k
      ∧ tail = .zCreate req :: .setCell i j url :: .setCell i k "yes".toList :: .commit i :: rest
      ∧ ∀ e ∈ rest, e.isProvision = false ∧ e.isWrite = false)

/-- The shape `RowTrace` as a property of what an iteration returns from `log`. -/
def RowShape (ext : Ext) (header : HeaderMap) (log : List Event) (i : Nat)
    (res : Except Str Unit × List Event) : Prop :=
  ∃ tail, res.2 = log ++ tail ∧ RowTrace ext header log i tail

/-- What the loop of a command-line batch with iteration `rowStep` appends to `log` on the
rows `rows`, the first of which is row `i`: nothing when no row is left; row 2 is passed
over; an iteration that throws appends its `RowTrace` and ends the loop; an iteration that
returns appends its `RowTrace` and the loop goes on from the log it left. Each row has
one iteration at most, and its trace is what that iteration appended. -/
inductive BatchTrace (ext : Ext) (header : HeaderMap) (rowStep : Nat → Row → Act Unit) :
    Nat → List Row → List Event → List Event → Prop
  | done (i : Nat) (log : List Event) : BatchTrace ext header rowStep i [] log []
  | skip (r : Row) (rows : List Row) (log tail : List Event) :
      BatchTrace ext header rowStep 3 rows log tail →
      BatchTrace ext header rowStep 2 (r :: rows) log tail
  | stop (i : Nat) (r : Row) (rows : List Row) (log tail : List Event) (e : Str) :
      i ≠ 2 → rowStep i r log = (.error e, log ++ tail) → RowTrace ext header log i tail →
      BatchTrace ext header rowStep i (r :: rows) log tail
  | next (i : Nat) (r : Row) (rows : List Row) (log tail rest : List Event) :
      i ≠ 2 → rowStep i r log = (.ok (), log ++ tail) → RowTrace ext header log i tail →
      BatchTrace ext header rowStep (i + 1) rows (log ++ tail) rest →
      BatchTrace ext header rowStep i (r :: rows) log (tail ++ rest)

/-- What a whole command-line batch with iteration `rowStep` appends to `log`: the token
call alone, or the token call and the graph client call alone (the batch ends when one of
them fails); or these two calls, the `JoinURL` cell of the header row 1 when the column is
new, the trace of the loop over the rows of the sheet from row 2, and `writeFile` or
nothing. No cell of a data row is written outside the trace of that row. -/
def BatchShape (ext : Ext) (rowStep : HeaderMap → Str → Nat → Row → Act Unit)
    (ws : Worksheet) (log : List Event) (res : Except Str Unit × List Event) : Prop :=
  res.2 = log ++ [.zToken]
  ∨ res.2 = log ++ [.zToken, .graphClient]
  ∨ ∃ token pre tail post, res.2 = log ++ pre ++ tail ++ post
      ∧ (pre = [.zToken, .graphClient]
          ∨ pre = [.zToken, .graphClient,
              .setCell 1 (ws.columnCount + 1) "JoinURL".toList])
      ∧ (post = [] ∨ post = [.writeFile])
      ∧ BatchTrace ext (batchHeader ws) (rowStep (batchHeader ws) token) 2 ws.rows
          (log ++ pre) tail

/-! ## Sample collaborators and inputs -/

/-- Collaborators that succeed, except that `zCreate` rejects the topic `Bad`; dates are
read by `tzIso`. -/
def demoExt : Ext :=
  { zToken := fun _ => .ok "token".toList
    graphClient := fun _ => .ok ()
    zCreate := fun log =>
      match log.getLast? with
      | some (.zCreate req) =>
        if req.topic = "Bad".toList then .error "Request failed with status code 400".toList
        else .ok ("https://zoom.us/j/".toList ++ req.topic)
      | _ => .ok []
    post := fun _ => .ok ()
    tz := tzIso
    outlookHost := some "host@example.org".toList }

/-- A ready stored row with the given topic. -/
def demoStored (topic : String) : StoredRow :=
  { team := "a@x.com".toList
    teamName := "Team A".toList
    topic := topic.toList
    dateChosen := "2024-05-01T10:00:00".toList
    durationMin := .num 30
    zoomAccount := some "host@example.org".toList
    participants := "a@x.com, b@x.com".toList
    meetingType := "zoom".toList
    missing := [] }

/-- A session of three ready rows, the second with the topic that `demoExt` rejects. -/
def demoUploads : Uploads :=
  [("f1".toList, [demoStored "Sync", demoStored "Bad", demoStored "Review"])]

/-- A sample object for `run`: an in-person meeting at the given location. -/
def demoInPerson (location : String) : RunOpts :=
  optsOf (demoStored "Sync") "in-person".toList location.toList

/-- A text cell; the empty text is the empty cell. -/
def textCell (s : String) : Cell :=
  if s.toList = [] then emptyCell else ⟨.str s.toList, s.toList⟩

/-- The header row of the sample sheet: sixteen named columns, no `JoinURL`. -/
def demoHeader : List (Option Str) :=
  [ some "Meeting Name".toList, some "Date Chosen".toList,
    some "Length of Meeting(minutes)".toList, some "Meeting Name For Invite".toList,
    some "Team invitees".toList, some "Added Invitee 1".toList, some "Added Invitee 2".toList,
    some "Added Invitee 3".toList, some "Added Invitee 4".toList, some "Email from form".toList,
    some "Meeting Booked".toList, some "Zoom Account to book from".toList,
    some "Team Name".toList, some "Meeting Type".toList, some "Location".toList,
    some "Team".toList ]

/-- A row of the sample sheet with the given topic, date text, duration cell and booked
text. -/
def demoRow (topic date : String) (len : Cell) (booked : String) : Row :=
  [ textCell topic, textCell date, len, textCell "Agenda", textCell "a@x.com",
    textCell "b@x.com", emptyCell, emptyCell, emptyCell, emptyCell, textCell booked,
    textCell "zoom@example.org", textCell "Team A", emptyCell, emptyCell, textCell "A" ]

/-- A sample sheet with the given rows below the header. -/
def demoSheet (rows : List Row) : Worksheet :=
  { header := demoHeader, rows := rows, columnCount := 16 }

/-- A sample sheet: the dummy row 2, row 3 with the topic that `demoExt` rejects, row 4 with
an accepted topic; both data rows are unbooked and have a valid date. -/
def demoFailingSheet : Worksheet :=
  demoSheet [[], demoRow "Bad" "2024-05-01T10:00:00" emptyCell "",
    demoRow "Sync" "2024-05-02T10:00:00" emptyCell ""]

/-- A sample sheet whose row 3 has a Date Chosen text that is no date and whose row 4 has
an empty one. -/
def demoBadDates : Worksheet :=
  demoSheet [[], demoRow "Sync" "next Tuesday" emptyCell "", demoRow "Plan" "" emptyCell ""]

/-- A sample sheet whose row 3 is complete, except that its duration cell is empty. -/
def demoNoDuration : Worksheet :=
  demoSheet [[], demoRow "Sync" "2024-05-01T10:00:00" emptyCell ""]

/-- The participant list in the spec's words: each source text is split on commas and
semicolons, every piece is trimmed, empty pieces are dropped, and the pieces of the texts
follow each other in the order of the texts; nothing is removed as a duplicate. -/
def specParticipants (texts : List Str) : List Str :=
  texts.flatMap (fun t =>
    ((splitOnP (fun c => c = ',' || c = ';') t).map trim).filter (fun e => e ≠ []))

/-! # Theorems -/

/-! ## Lemmas on actions -/

theorem Act.Emits.ret {α : Type} (P : Event → Prop) (a : α) : Act.Emits P (Act.ret a) :=
  fun log => ⟨[], by simp [Act.ret], by simp⟩

theorem Act.Emits.fail {α : Type} (P : Event → Prop) (e : Str) :
    Act.Emits P (Act.fail e : Act α) :=
  fun log => ⟨[], by simp [Act.fail], by simp⟩

theorem Act.Emits.lift {α : Type} (P : Event → Prop) (x : Except Str α) :
    Act.Emits P (Act.lift x) :=
  fun log => ⟨[], by simp [Act.lift], by simp⟩

theorem Act.Emits.emit {P : Event → Prop} {e : Event} (h : P e) : Act.Emits P (Act.emit e) :=
  fun log => ⟨[e], by simp [Act.emit], by simpa using h⟩

theorem Act.Emits.call {α : Type} {P : Event → Prop} {e : Event} (h : P e)
    (f : List Event → Except Str α) : Act.Emits P (Act.call e f) :=
  fun log => ⟨[e], by simp [Act.call], by simpa using h⟩

theorem Act.Emits.bind {α β : Type} {P : Event → Prop} {m : Act α} {f : α → Act β}
    (hm : Act.Emits P m) (hf : ∀ a, Act.Emits P (f a)) : Act.Emits P (Act.bind m f) := by
  intro log
  obtain ⟨t1, h1, p1⟩ := hm log
  unfold Act.bind
  rcases hres : m log with ⟨r, log1⟩
  rw [hres] at h1
  simp only at h1
  subst h1
  cases r with
  | error e => exact ⟨t1, rfl, p1⟩
  | ok a =>
    obtain ⟨t2, h2, p2⟩ := hf a (log ++ t1)
    refine ⟨t1 ++ t2, ?_, ?_⟩
    · simp only [h2, List.append_assoc]
    · intro e he
      rcases List.mem_append.mp he with h | h
      · exact p1 e h
      · exact p2 e h

theorem sendInvite_emits {P : Event → Prop} (ext : Ext) (row : Option InviteRow)
    (joinUrl : Str) (attendees : List Str) (host : Option Str)
    (h1 : P (.sendInvite row joinUrl attendees))
    (h2 : ∀ r, row = some r → P (.post host (buildEvent ext r joinUrl attendees))) :
    Act.Emits P (sendInvite ext row joinUrl attendees host) := by
  unfold sendInvite
  refine Act.Emits.bind (Act.Emits.emit h1) (fun _ => ?_)
  cases row with
  | none => exact Act.Emits.fail P _
  | some r => exact Act.Emits.call (h2 r rfl) _

theorem runObject_emits_no_run (ext : Ext) (o : RunOpts) :
    Act.Emits (fun e => e.isRun = false) (runObject ext o) := by
  unfold runObject
  refine Act.Emits.bind (Act.Emits.call (by rfl) _) (fun token => ?_)
  refine Act.Emits.bind (Act.Emits.call (by rfl) _) (fun _ => ?_)
  refine Act.Emits.bind ?_ (fun _ => ?_)
  · split
    · exact Act.Emits.call (by rfl) _
    · exact Act.Emits.ret _ _
  · exact sendInvite_emits ext _ _ _ _ (by rfl) (fun _ _ => by rfl)

theorem runCalls_append (a b : List Event) : runCalls (a ++ b) = runCalls a ++ runCalls b := by
  simp [runCalls]

theorem runCalls_eq_nil {l : List Event} (h : ∀ e ∈ l, e.isRun = false) : runCalls l = [] := by
  unfold runCalls
  rw [List.filterMap_eq_nil_iff]
  intro e he
  have := h e he
  cases e <;> simp_all [Event.isRun]

theorem run_object_calls (ext : Ext) (o : RunOpts) (log : List Event) :
    runCalls (run ext (.object o) log).2 = runCalls log ++ [o] := by
  obtain ⟨tail, h, p⟩ := runObject_emits_no_run ext o (log ++ [Event.run o])
  have hrun : (run ext (.object o) log).2 = (runObject ext o (log ++ [Event.run o])).2 := by
    simp [run, Act.bind, Act.emit]
  rw [hrun, h, runCalls_append, runCalls_append, runCalls_eq_nil p]
  simp [runCalls]

theorem processRows_spec (ext : Ext) (mt loc : Str) (rows : List StoredRow) :
    ∀ (t : Tally) (log : List Event),
      let res := processRows ext mt loc rows t log
      let outs := runOutcomes ext mt loc (rows.filter isReady) log
      runCalls res.2 = runCalls log ++ (rows.filter isReady).map (fun row => optsOf row mt loc)
      ∧ res.1.sent = t.sent + (outs.filter succeeded).length
      ∧ res.1.failed = t.failed + (outs.filter (fun r => !succeeded r)).length
      ∧ res.1.errors = t.errors ++ outs.filterMap failureOf := by
  induction rows with
  | nil => intro t log; simp [processRows, runOutcomes]
  | cons row rest ih =>
    intro t log
    by_cases hr : row.missing.length = 0
    · have hready : isReady row = true := by simp [isReady, hr]
      simp only [processRows, hr, ne_eq, not_true_eq_false, ite_false, List.filter_cons, hready,
        ite_true, runOutcomes, List.map_cons]
      rcases hres : run ext (.object (optsOf row mt loc)) log with ⟨r, log1⟩
      have hc := run_object_calls ext (optsOf row mt loc) log
      rw [hres] at hc
      simp only at hc
      cases r with
      | ok u =>
        obtain ⟨h1, h2, h3, h4⟩ := ih { t with sent := t.sent + 1 } log1
        simp only at h1 h2 h3 h4 ⊢
        refine ⟨?_, ?_, ?_, ?_⟩
        · rw [h1, hc]; simp
        · rw [h2]; simp [succeeded]; omega
        · rw [h3]; simp [succeeded]
        · rw [h4]; simp [failureOf]
      | error e =>
        obtain ⟨h1, h2, h3, h4⟩ :=
          ih { t with failed := t.failed + 1, errors := t.errors ++ [(row, e)] } log1
        simp only at h1 h2 h3 h4 ⊢
        refine ⟨?_, ?_, ?_, ?_⟩
        · rw [h1, hc]; simp
        · rw [h2]; simp [succeeded]
        · rw [h3]; simp [succeeded]; omega
        · rw [h4]; simp [failureOf]
    · have hready : isReady row = false := by simp [isReady, hr]
      simp only [processRows, hr, ne_eq, not_false_eq_true, ite_true, List.filter_cons, hready]
      exact ih t log

theorem runOutcomes_length (ext : Ext) (mt loc : Str) (rows : List StoredRow) :
    ∀ log, (runOutcomes ext mt loc rows log).length = rows.length := by
  induction rows with
  | nil => intro log; rfl
  | cons row rest ih => intro log; simp [runOutcomes, ih]

theorem failures_length (outs : List (StoredRow × Except Str Unit)) :
    (outs.filterMap failureOf).length = (outs.filter (fun r => !succeeded r)).length := by
  induction outs with
  | nil => rfl
  | cons r rest ih =>
    rcases r with ⟨row, x⟩
    cases x <;> simp [List.filterMap_cons, List.filter_cons, failureOf, succeeded, ih]

theorem succeeded_add_failed (outs : List (StoredRow × Except Str Unit)) :
    (outs.filter succeeded).length + (outs.filter (fun r => !succeeded r)).length
      = outs.length := by
  induction outs with
  | nil => rfl
  | cons r rest ih =>
    by_cases h : succeeded r = true
    · simp [List.filter_cons, h]; omega
    · simp [List.filter_cons, h]; omega

/-- C1: for a stored session, `POST /process` calls `run` exactly once per ready row, in
stored order, whatever the earlier calls returned; `sent` counts the calls that succeeded,
`failed` the calls that threw, and `errors` has one entry per call that threw. -/
theorem process_runs_each_ready_row_and_counts (ext : Ext) (uploads : Uploads)
    (id mt loc : Str) (log : List Event) (rows : List StoredRow)
    (h : uploads.get id = some rows) :
    ∃ t log1, process ext uploads id mt loc log = (some t, log1)
      ∧ runCalls log1 = runCalls log ++ (rows.filter isReady).map (fun row => optsOf row mt loc)
      ∧ t.sent = ((runOutcomes ext mt loc (rows.filter isReady) log).filter succeeded).length
      ∧ t.failed = ((runOutcomes ext mt loc (rows.filter isReady) log).filter
          (fun r => !succeeded r)).length
      ∧ t.errors = (runOutcomes ext mt loc (rows.filter isReady) log).filterMap failureOf
      ∧ t.errors.length = t.failed
      ∧ t.sent + t.failed = (rows.filter isReady).length := by
  obtain ⟨h1, h2, h3, h4⟩ := processRows_spec ext mt loc rows ⟨0, 0, []⟩ log
  simp only [Nat.zero_add, List.nil_append] at h1 h2 h3 h4
  refine ⟨(processRows ext mt loc rows ⟨0, 0, []⟩ log).1,
    (processRows ext mt loc rows ⟨0, 0, []⟩ log).2, ?_, h1, h2, h3, h4, ?_, ?_⟩
  · simp [process, h]
  · rw [h4, h3, failures_length]
  · rw [h2, h3, succeeded_add_failed, runOutcomes_length]

/-- C1, on the session `demoUploads`: three ready rows, the second one failing. -/
theorem process_runs_each_ready_row_and_counts_witness :
    demoUploads.get "f1".toList
        = some [demoStored "Sync", demoStored "Bad", demoStored "Review"]
    ∧ (process demoExt demoUploads "f1".toList "zoom".toList [] []).1
        = some ⟨2, 1, [(demoStored "Bad", "Request failed with status code 400".toList)]⟩
    ∧ ∃ t log1, process demoExt demoUploads "f1".toList "zoom".toList [] [] = (some t, log1)
      ∧ runCalls log1 = runCalls [] ++
          ([demoStored "Sync", demoStored "Bad", demoStored "Review"].filter isReady).map
            (fun row => optsOf row "zoom".toList [])
      ∧ t.sent = ((runOutcomes demoExt "zoom".toList []
          ([demoStored "Sync", demoStored "Bad", demoStored "Review"].filter isReady)
          []).filter succeeded).length
      ∧ t.failed = ((runOutcomes demoExt "zoom".toList []
          ([demoStored "Sync", demoStored "Bad", demoStored "Review"].filter isReady)
          []).filter (fun r => !succeeded r)).length
      ∧ t.errors = (runOutcomes demoExt "zoom".toList []
          ([demoStored "Sync", demoStored "Bad", demoStored "Review"].filter isReady)
          []).filterMap failureOf
      ∧ t.errors.length = t.failed
      ∧ t.sent + t.failed
          = ([demoStored "Sync", demoStored "Bad", demoStored "Review"].filter isReady).length :=
  ⟨by decide, by decide,
    process_runs_each_ready_row_and_counts demoExt demoUploads "f1".toList "zoom".toList [] []
      [demoStored "Sync", demoStored "Bad", demoStored "Review"] (by decide)⟩

/-! ## Already booked rows -/

theorem batchLoop_emits {P : Event → Prop} (rowStep : Nat → Row → Act Unit) (rows : List Row)
    (h : ∀ r ∈ rows, ∀ j, Act.Emits P (rowStep j r)) :
    ∀ i, Act.Emits P (batchLoop rowStep i rows) := by
  induction rows with
  | nil => intro i; exact Act.Emits.ret P ()
  | cons r rest ih =>
    intro i
    unfold batchLoop
    split
    · exact ih (fun r hr => h r (List.mem_cons_of_mem _ hr)) _
    · exact Act.Emits.bind (h r (List.mem_cons_self _ _) i)
        (fun _ => ih (fun r hr => h r (List.mem_cons_of_mem _ hr)) _)

theorem batchLoop_emits_from_two {P : Event → Prop} (rowStep : Nat → Row → Act Unit)
    (rows : List Row) (h : ∀ r ∈ rows.drop 1, ∀ j, Act.Emits P (rowStep j r)) :
    Act.Emits P (batchLoop rowStep 2 rows) := by
  cases rows with
  | nil => exact Act.Emits.ret P ()
  | cons r rest =>
    unfold batchLoop
    simp only [ite_true]
    exact batchLoop_emits rowStep rest (by simpa using h) _

theorem batch_emits {P : Event → Prop} (ext : Ext)
    (rowStep : HeaderMap → Str → Nat → Row → Act Unit) (ws : Worksheet)
    (h0 : P .zToken) (h1 : P .graphClient)
    (h2 : P (.setCell 1 (ws.columnCount + 1) "JoinURL".toList)) (h3 : P .writeFile)
    (h : ∀ token, Act.Emits P (batchLoop (rowStep (batchHeader ws) token) 2 ws.rows)) :
    Act.Emits P (batch ext rowStep ws) := by
  unfold batch
  refine Act.Emits.bind (Act.Emits.call h0 _) (fun token => ?_)
  refine Act.Emits.bind (Act.Emits.call h1 _) (fun _ => ?_)
  refine Act.Emits.bind ?_ (fun _ => ?_)
  · split
    · exact Act.Emits.emit h2
    · exact Act.Emits.ret _ _
  · exact Act.Emits.bind (h _) (fun _ => Act.Emits.emit h3)

theorem get_set_ne (h : HeaderMap) (k k1 : Str) (i : Nat) (hne : k ≠ k1) :
    (h.set k i).get k1 = h.get k1 := by
  simp [HeaderMap.set, HeaderMap.get, hne]

theorem col_set_joinurl (h : HeaderMap) (i : Nat) (name : Str)
    (hne : toLowerCase name ≠ "joinurl".toList) :
    col (h.set "joinurl".toList i) name = col h name := by
  unfold col
  exact get_set_ne h _ _ i (fun e => hne e.symm)

theorem col_batchHeader (ws : Worksheet) (name : Str)
    (hne : toLowerCase name ≠ "joinurl".toList) :
    col (batchHeader ws) name = col (buildHeaderMap ws.header) name := by
  unfold batchHeader
  split
  · exact col_set_joinurl _ _ _ hne
  · rfl

theorem getCell_booked {header : HeaderMap} {r : Row} (h : bookedYes header r = true) :
    ∃ c, getCell r (col header "meeting booked".toList) = .ok c
      ∧ toLowerCase c.text = "yes".toList := by
  unfold bookedYes at h
  split at h
  · next n hn => exact ⟨_, by rw [hn]; rfl, by simpa using h⟩
  · exact absurd h (by simp)

theorem cliRow_booked (ext : Ext) {header : HeaderMap} (token : Str) (i : Nat) {r : Row}
    (h : bookedYes header r = true) : cliRow ext header token i r = Act.ret () := by
  obtain ⟨c, hc, hyes⟩ := getCell_booked h
  funext log
  unfold cliRow
  simp only [Act.bind, Act.lift, hc, hyes, ite_true]

theorem fileRow_booked (ext : Ext) {header : HeaderMap} (token : Str) (i : Nat) {r : Row}
    (h : bookedYes header r = true) : fileRow ext header token i r = Act.ret () := by
  obtain ⟨c, hc, hyes⟩ := getCell_booked h
  funext log
  unfold fileRow
  simp only [Act.bind, Act.lift, hc, hyes, ite_true]

theorem bookedYes_batchHeader (ws : Worksheet) (r : Row)
    (h : bookedYes (buildHeaderMap ws.header) r = true) :
    bookedYes (batchHeader ws) r = true := by
  unfold bookedYes at h ⊢
  rw [col_batchHeader ws _ (by decide)]
  exact h

theorem getCellText_booked {header : HeaderMap} {r : Row} (h : bookedYes header r = true) :
    toLowerCase (getCellText header "meeting booked".toList r) = "yes".toList := by
  unfold bookedYes at h
  unfold getCellText
  split at h
  · next n hn => rw [hn]; simpa using h
  · exact absurd h (by simp)

theorem uploadRow_booked (ext : Ext) {header : HeaderMap} {r : Row} (st : UploadState)
    (h : bookedYes header r = true) : (uploadRow ext header r st).rows = st.rows := by
  have hb := getCellText_booked h
  unfold uploadRow
  simp only [hb, ite_true]
  split <;> rfl

theorem uploadLoop_booked (ext : Ext) (header : HeaderMap) (rows : List Row)
    (h : ∀ r ∈ rows, bookedYes header r = true) :
    ∀ i st, (uploadLoop ext header i rows st).rows = st.rows := by
  induction rows with
  | nil => intro i st; rfl
  | cons r rest ih =>
    intro i st
    have hrest : ∀ r ∈ rest, bookedYes header r = true :=
      fun r hr => h r (List.mem_cons_of_mem _ hr)
    unfold uploadLoop
    split
    · exact ih hrest _ _
    · split
      · rfl
      · split
        · rfl
        · rw [ih hrest, uploadRow_booked ext st (h r (List.mem_cons_self _ _))]

theorem validate_booked (ext : Ext) (ws : Worksheet)
    (h : ∀ r ∈ ws.rows.drop 1, bookedYes (buildHeaderMap ws.header) r = true) :
    (validate ext ws).rows = [] := by
  unfold validate
  cases hrows : ws.rows with
  | nil => rfl
  | cons r rest =>
    unfold uploadLoop
    simp only [ite_true]
    rw [hrows] at h
    exact uploadLoop_booked ext _ rest (by simpa using h) _ _

/-- C2: when the `Meeting Booked` cell of every data row (row 3 on) is `yes` up to letter
case, neither command-line batch makes a provisioning call or an invite call, the upload
stores an empty outcome list, and the commit of that session does nothing. -/
theorem all_booked_books_nothing (ext : Ext) (ws : Worksheet)
    (h : ∀ r ∈ ws.rows.drop 1, bookedYes (buildHeaderMap ws.header) r = true) :
    Act.Emits (fun e => e.isProvision = false ∧ e.isInvite = false) (cliMain ext ws)
    ∧ Act.Emits (fun e => e.isProvision = false ∧ e.isInvite = false) (run ext (.file ws))
    ∧ (validate ext ws).rows = []
    ∧ ∀ uploads name mt loc log,
        process ext (upload ext uploads name ws) name mt loc log = (some ⟨0, 0, []⟩, log) := by
  refine ⟨?_, ?_, validate_booked ext ws h, ?_⟩
  · refine batch_emits ext _ ws ⟨rfl, rfl⟩ ⟨rfl, rfl⟩ ⟨rfl, rfl⟩ ⟨rfl, rfl⟩ (fun token => ?_)
    refine batchLoop_emits_from_two _ _ (fun r hr j => ?_)
    rw [cliRow_booked ext token j (bookedYes_batchHeader ws r (h r hr))]
    exact Act.Emits.ret _ _
  · refine batch_emits ext _ ws ⟨rfl, rfl⟩ ⟨rfl, rfl⟩ ⟨rfl, rfl⟩ ⟨rfl, rfl⟩ (fun token => ?_)
    refine batchLoop_emits_from_two _ _ (fun r hr j => ?_)
    rw [fileRow_booked ext token j (bookedYes_batchHeader ws r (h r hr))]
    exact Act.Emits.ret _ _
  · intro uploads name mt loc log
    simp [process, upload, Uploads.get, validate_booked ext ws h, processRows]

/-- C2, on a sheet whose two data rows are booked (`yes` and `YES`). -/
theorem all_booked_books_nothing_witness :
    (∀ r ∈ (demoSheet [[], demoRow "Sync" "2024-05-01T10:00:00" emptyCell "yes",
        demoRow "Review" "2024-05-02T10:00:00" emptyCell "YES"]).rows.drop 1,
      bookedYes (buildHeaderMap (demoSheet [[], demoRow "Sync" "2024-05-01T10:00:00" emptyCell
        "yes", demoRow "Review" "2024-05-02T10:00:00" emptyCell "YES"]).header) r = true)
    ∧ (cliMain demoExt (demoSheet [[], demoRow "Sync" "2024-05-01T10:00:00" emptyCell "yes",
        demoRow "Review" "2024-05-02T10:00:00" emptyCell "YES"]) []).2
      = [.zToken, .graphClient, .setCell 1 17 "JoinURL".toList, .writeFile]
    ∧ (validate demoExt (demoSheet [[], demoRow "Sync" "2024-05-01T10:00:00" emptyCell "yes",
        demoRow "Review" "2024-05-02T10:00:00" emptyCell "YES"])).rows = [] :=
  ⟨by decide, by decide,
    (all_booked_books_nothing demoExt (demoSheet [[], demoRow "Sync" "2024-05-01T10:00:00"
      emptyCell "yes", demoRow "Review" "2024-05-02T10:00:00" emptyCell "YES"])
      (by decide)).2.2.1⟩

/-! ## Completeness validation -/

theorem joinWith_eq_nil (sep : Str) :
    ∀ (l : List Str), (∀ s ∈ l, s ≠ []) → (joinWith sep l = [] ↔ l = []) := by
  intro l h
  cases l with
  | nil => simp [joinWith]
  | cons s rest =>
    have hs : s ≠ [] := h s (List.mem_cons_self _ _)
    cases rest with
    | nil => simp [joinWith, hs]
    | cons t rest => simp [joinWith, hs]

theorem parseEmails_ne_nil (text : Str) : ∀ s ∈ parseEmails text, s ≠ [] := by
  intro s hs
  unfold parseEmails at hs
  simpa using (List.mem_filter.mp hs).2

theorem truthyOpt_some (s : Str) : truthyOpt (some s) = !decide (s = []) := by
  simp [truthyOpt, truthy]

theorem processRows_filter_ready (ext : Ext) (mt loc : Str) (rows : List StoredRow) :
    ∀ (t : Tally) (log : List Event),
      processRows ext mt loc rows t log = processRows ext mt loc (rows.filter isReady) t log := by
  induction rows with
  | nil => intro t log; rfl
  | cons row rest ih =>
    intro t log
    by_cases hr : row.missing.length = 0
    · have hready : isReady row = true := by simp [isReady, hr]
      simp only [List.filter_cons, hready, ite_true, processRows, hr, ne_eq, not_true_eq_false,
        ite_false]
      rcases run ext (.object (optsOf row mt loc)) log with ⟨r, log1⟩
      cases r <;> exact ih _ _
    · have hready : isReady row = false := by simp [isReady, hr]
      simp only [List.filter_cons, hready, processRows, hr, ne_eq, not_false_eq_true, ite_true]
      exact ih t log

theorem missingOf_essentials (topic dateChosen team : Str) (zoomAccount : Option Str)
    (ps : List Str) (hps : ∀ s ∈ ps, s ≠ []) :
    missingOf (essentials topic dateChosen team zoomAccount ps) =
      (if topic = [] then ["Meeting Name".toList] else [])
      ++ (if dateChosen = [] then ["Date Chosen".toList] else [])
      ++ (if team = [] then ["Team Invitees".toList] else [])
      ++ (if truthyOpt zoomAccount = false then ["Zoom Account to book from".toList] else [])
      ++ (if joinWith ", ".toList ps = [] then ["Invitees".toList] else []) := by
  have hj : joinWith [',', ' '] ps = [] ↔ ps = [] := joinWith_eq_nil _ ps hps
  by_cases h1 : topic = [] <;> by_cases h2 : dateChosen = [] <;> by_cases h3 : team = []
    <;> by_cases h4 : truthyOpt zoomAccount = false <;> by_cases h5 : ps = []
    <;> simp [missingOf, essentials, truthyOpt_some, h1, h2, h3, h4, h5, hj,
      List.filter_cons, joinWith]

theorem uploadRecord_missing (ext : Ext) (header : HeaderMap) (r : Row) :
    (uploadRecord ext header r).missing =
      (if (uploadRecord ext header r).topic = [] then ["Meeting Name".toList] else [])
      ++ (if (uploadRecord ext header r).dateChosen = [] then ["Date Chosen".toList] else [])
      ++ (if (uploadRecord ext header r).team = [] then ["Team Invitees".toList] else [])
      ++ (if truthyOpt (uploadRecord ext header r).zoomAccount = false then
            ["Zoom Account to book from".toList] else [])
      ++ (if (uploadRecord ext header r).participants = [] then ["Invitees".toList] else []) :=
  missingOf_essentials (getCellText header "meeting name".toList r)
    (getCellText header "date chosen".toList r) (getCellText header "team invitees".toList r)
    (orDefault (getCellText header "Zoom Account to book from".toList r) ext.outlookHost)
    (uploadParticipants header r) (parseEmails_ne_nil _)

theorem uploadRow_pushes (ext : Ext) (header : HeaderMap) (r : Row) (st : UploadState)
    (hnb : toLowerCase (getCellText header "meeting booked".toList r) ≠ "yes".toList) :
    (uploadRow ext header r st).rows = st.rows ++ [uploadRecord ext header r] := by
  unfold uploadRow
  simp only [hnb, ite_false]
  split <;> rfl

theorem uploadRecord_empty_date (ext : Ext) (header : HeaderMap) (r : Row)
    (hd : getCellText header "date chosen".toList r = []) :
    "Date Chosen".toList ∈ (uploadRecord ext header r).missing := by
  have hd2 : (uploadRecord ext header r).dateChosen = [] := hd
  rw [uploadRecord_missing, hd2]
  simp

/-- C3: a row that is not already booked is pushed with a missing list that holds, in the
order Meeting Name, Date Chosen, Team Invitees, Zoom Account to book from, Invitees, the
label of each essential field whose value is empty and no other label; so an empty Date
Chosen puts `Date Chosen` in the list; and the commit step treats a session as it treats
its ready rows alone: a row with a non-empty missing list gets no call at all. -/
theorem upload_missing_lists_empty_essentials (ext : Ext) (header : HeaderMap) (r : Row)
    (st : UploadState)
    (hnb : toLowerCase (getCellText header "meeting booked".toList r) ≠ "yes".toList) :
    (uploadRow ext header r st).rows = st.rows ++ [uploadRecord ext header r]
    ∧ (uploadRecord ext header r).topic = getCellText header "meeting name".toList r
    ∧ (uploadRecord ext header r).dateChosen = getCellText header "date chosen".toList r
    ∧ (uploadRecord ext header r).team = getCellText header "team invitees".toList r
    ∧ (uploadRecord ext header r).zoomAccount
        = orDefault (getCellText header "Zoom Account to book from".toList r) ext.outlookHost
    ∧ (uploadRecord ext header r).participants
        = joinWith ", ".toList (uploadParticipants header r)
    ∧ (uploadRecord ext header r).missing =
        (if (uploadRecord ext header r).topic = [] then ["Meeting Name".toList] else [])
        ++ (if (uploadRecord ext header r).dateChosen = [] then ["Date Chosen".toList] else [])
        ++ (if (uploadRecord ext header r).team = [] then ["Team Invitees".toList] else [])
        ++ (if truthyOpt (uploadRecord ext header r).zoomAccount = false then
              ["Zoom Account to book from".toList] else [])
        ++ (if (uploadRecord ext header r).participants = [] then ["Invitees".toList] else [])
    ∧ ((uploadRecord ext header r).dateChosen = [] →
        "Date Chosen".toList ∈ (uploadRecord ext header r).missing)
    ∧ ∀ mt loc rows t log,
        processRows ext mt loc rows t log
          = processRows ext mt loc (rows.filter isReady) t log := by
  exact ⟨uploadRow_pushes ext header r st hnb, rfl, rfl, rfl, rfl, rfl,
    uploadRecord_missing ext header r, uploadRecord_empty_date ext header r,
    processRows_filter_ready ext⟩

/-- C3, on a sample row whose Date Chosen cell is empty. -/
theorem upload_missing_lists_empty_essentials_witness :
    toLowerCase (getCellText (buildHeaderMap demoHeader) "meeting booked".toList
        (demoRow "Sync" "" emptyCell "")) ≠ "yes".toList
    ∧ (uploadRecord demoExt (buildHeaderMap demoHeader) (demoRow "Sync" "" emptyCell "")).missing
        = ["Date Chosen".toList]
    ∧ "Date Chosen".toList ∈
        (uploadRecord demoExt (buildHeaderMap demoHeader) (demoRow "Sync" "" emptyCell "")).missing :=
  ⟨by decide, by decide,
    (upload_missing_lists_empty_essentials demoExt (buildHeaderMap demoHeader)
      (demoRow "Sync" "" emptyCell "") ⟨[], false, 0⟩ (by decide)).2.2.2.2.2.2.2.1 (by decide)⟩

/-! ## Write-back order -/

theorem batchHeader_joinurl (ws : Worksheet) :
    ∃ j, (batchHeader ws).get "joinurl".toList = some (j + 1) := by
  unfold batchHeader
  split
  · exact ⟨ws.columnCount, by simp [HeaderMap.set, HeaderMap.get]⟩
  · next h =>
    unfold lacksJoinUrl at h
    split at h
    · exact absurd rfl h
    · exact absurd rfl h
    · next n hn => exact ⟨n, hn⟩

theorem getCell_ok_col {r : Row} {c : Option Nat} {cell : Cell} (h : getCell r c = .ok cell) :
    ∃ k, c = some (k + 1) := by
  unfold getCell at h
  split at h
  · exact absurd h (by simp)
  · exact absurd h (by simp)
  · next n => exact ⟨n, rfl⟩

theorem RowShape.error (ext : Ext) (header : HeaderMap) (log : List Event) (i : Nat) (e : Str) :
    RowShape ext header log i (.error e, log) :=
  ⟨[], by simp, Or.inl (by simp)⟩

theorem RowShape.lift_bind {α : Type} (ext : Ext) (header : HeaderMap) (log : List Event)
    (i : Nat) (x : Except Str α) (f : α → Act Unit)
    (h : ∀ a, x = .ok a → RowShape ext header log i (f a log)) :
    RowShape ext header log i (Act.bind (Act.lift x) f log) := by
  cases x with
  | error e => exact RowShape.error ext header log i e
  | ok a => exact h a rfl

theorem RowShape.provision (ext : Ext) (header : HeaderMap) (log : List Event) (i : Nat)
    (req : ZoomReq) (f : Str → Unit → Act Unit) (j k : Nat)
    (hj : header.get "joinurl".toList = some (j + 1))
    (hk : col header "meeting booked".toList = some (k + 1))
    (hf : ∀ url, Act.Emits (fun e => e.isProvision = false ∧ e.isWrite = false) (f url ())) :
    RowShape ext header log i
      (Act.bind (Act.call (.zCreate req) ext.zCreate) (fun joinUrl =>
        Act.bind (writeBack header i joinUrl) (f joinUrl)) log) := by
  unfold RowShape RowTrace
  simp only [Act.bind, Act.call]
  cases hz : ext.zCreate (log ++ [Event.zCreate req]) with
  | error e => exact ⟨[.zCreate req], rfl, Or.inr (Or.inl ⟨req, e, rfl, hz⟩)⟩
  | ok url =>
    simp only [writeBack, hj, hk, setCellValue, Act.bind, Act.emit]
    obtain ⟨rest, hrest, prest⟩ := hf url (log ++ [Event.zCreate req] ++
      [Event.setCell i (j + 1) url] ++ [Event.setCell i (k + 1) "yes".toList] ++ [Event.commit i])
    refine ⟨.zCreate req :: .setCell i (j + 1) url :: .setCell i (k + 1) "yes".toList
      :: .commit i :: rest, ?_, Or.inr (Or.inr ⟨req, url, j + 1, k + 1, rest, hz, rfl, rfl, rfl,
        prest⟩)⟩
    rw [hrest]
    simp

theorem cliRow_shape (ext : Ext) (ws : Worksheet) (token : Str) (i : Nat) (r : Row)
    (log : List Event) :
    RowShape ext (batchHeader ws) log i (cliRow ext (batchHeader ws) token i r log) := by
  obtain ⟨j, hj⟩ := batchHeader_joinurl ws
  unfold cliRow
  refine RowShape.lift_bind _ _ _ _ _ _ (fun booked hb => ?_)
  obtain ⟨k, hk⟩ := getCell_ok_col hb
  split
  · exact ⟨[], by simp [Act.ret], Or.inl (by simp)⟩
  refine RowShape.lift_bind _ _ _ _ _ _ (fun topic _ => ?_)
  refine RowShape.lift_bind _ _ _ _ _ _ (fun dateChosen _ => ?_)
  by_cases hv : (ext.tz dateChosen.text).isNone = true
  · rw [if_pos hv]
    exact ⟨[.warn i dateChosen.text], by simp [Act.emit], Or.inl (by simp [Event.isProvision,
      Event.isInvite, Event.isWrite])⟩
  rw [if_neg hv]
  refine RowShape.lift_bind _ _ _ _ _ _ (fun len _ => ?_)
  refine RowShape.lift_bind _ _ _ _ _ _ (fun agenda _ => ?_)
  refine RowShape.lift_bind _ _ _ _ _ _ (fun acct _ => ?_)
  refine RowShape.lift_bind _ _ _ _ _ _ (fun participants _ => ?_)
  refine RowShape.provision ext _ log i _ _ j k hj hk (fun url => ?_)
  refine Act.Emits.bind (Act.Emits.lift _ _) (fun teamName => ?_)
  refine Act.Emits.bind (Act.Emits.lift _ _) (fun _ => ?_)
  refine Act.Emits.bind (sendInvite_emits ext _ _ _ _ ⟨rfl, rfl⟩ (fun _ _ => ⟨rfl, rfl⟩))
    (fun _ => ?_)
  exact Act.Emits.emit ⟨rfl, rfl⟩

theorem fileRow_shape (ext : Ext) (ws : Worksheet) (token : Str) (i : Nat) (r : Row)
    (log : List Event) :
    RowShape ext (batchHeader ws) log i (fileRow ext (batchHeader ws) token i r log) := by
  obtain ⟨j, hj⟩ := batchHeader_joinurl ws
  unfold fileRow
  refine RowShape.lift_bind _ _ _ _ _ _ (fun booked hb => ?_)
  obtain ⟨k, hk⟩ := getCell_ok_col hb
  split
  · exact ⟨[], by simp [Act.ret], Or.inl (by simp)⟩
  refine RowShape.lift_bind _ _ _ _ _ _ (fun topic _ => ?_)
  refine RowShape.lift_bind _ _ _ _ _ _ (fun dateChosen _ => ?_)
  by_cases hv : (ext.tz dateChosen.text).isNone = true
  · rw [if_pos hv]
    exact ⟨[.warn i dateChosen.text], by simp [Act.emit], Or.inl (by simp [Event.isProvision,
      Event.isInvite, Event.isWrite])⟩
  rw [if_neg hv]
  refine RowShape.lift_bind _ _ _ _ _ _ (fun len _ => ?_)
  refine RowShape.lift_bind _ _ _ _ _ _ (fun agenda _ => ?_)
  refine RowShape.lift_bind _ _ _ _ _ _ (fun acct _ => ?_)
  refine RowShape.lift_bind _ _ _ _ _ _ (fun participants _ => ?_)
  refine RowShape.lift_bind _ _ _ _ _ _ (fun _ _ => ?_)
  refine RowShape.lift_bind _ _ _ _ _ _ (fun _ _ => ?_)
  refine RowShape.provision ext _ log i _ _ j k hj hk (fun url => ?_)
  refine Act.Emits.bind (Act.Emits.lift _ _) (fun _ => ?_)
  refine Act.Emits.bind (sendInvite_emits ext _ _ _ _ ⟨rfl, rfl⟩ (fun _ _ => ⟨rfl, rfl⟩))
    (fun _ => ?_)
  exact Act.Emits.emit ⟨rfl, rfl⟩

theorem batchLoop_trace (ext : Ext) (header : HeaderMap) (rowStep : Nat → Row → Act Unit)
    (hstep : ∀ i r log, RowShape ext header log i (rowStep i r log)) (rows : List Row) :
    ∀ i log, ∃ tail, (batchLoop rowStep i rows log).2 = log ++ tail
      ∧ BatchTrace ext header rowStep i rows log tail := by
  induction rows with
  | nil => intro i log; exact ⟨[], by simp [batchLoop, Act.ret], BatchTrace.done i log⟩
  | cons r rest ih =>
    intro i log
    unfold batchLoop
    by_cases h2 : i = 2
    · rw [if_pos h2]
      subst h2
      obtain ⟨tail, h, t⟩ := ih 3 log
      exact ⟨tail, h, BatchTrace.skip r rest log tail t⟩
    · rw [if_neg h2]
      obtain ⟨tail1, h1, t1⟩ := hstep i r log
      unfold Act.bind
      rcases hres : rowStep i r log with ⟨res, log1⟩
      rw [hres] at h1
      simp only at h1
      subst h1
      cases res with
      | error e => exact ⟨tail1, rfl, BatchTrace.stop i r rest log tail1 e h2 hres t1⟩
      | ok u =>
        obtain ⟨tail2, h3, t2⟩ := ih (i + 1) (log ++ tail1)
        refine ⟨tail1 ++ tail2, ?_, BatchTrace.next i r rest log tail1 tail2 h2 hres t1 t2⟩
        simp only [h3, List.append_assoc]

theorem BatchTrace.exact {ext : Ext} {header : HeaderMap} {rowStep : Nat → Row → Act Unit}
    {i : Nat} {rows : List Row} {log tail : List Event}
    (h : BatchTrace ext header rowStep i rows log tail) :
    (batchLoop rowStep i rows log).2 = log ++ tail := by
  induction h with
  | done i log => simp [batchLoop, Act.ret]
  | skip r rows log tail _ ih => simpa [batchLoop] using ih
  | stop i r rows log tail e h2 hstep _ =>
    unfold batchLoop
    rw [if_neg h2]
    unfold Act.bind
    rw [hstep]
  | next i r rows log tail rest h2 hstep _ _ ih =>
    unfold batchLoop
    rw [if_neg h2]
    unfold Act.bind
    rw [hstep]
    simp only [ih, List.append_assoc]

theorem Act.bind_call {α β : Type} (e : Event) (f : List Event → Except Str α)
    (g : α → Act β) (log : List Event) :
    Act.bind (Act.call e f) g log =
      (match f (log ++ [e]) with
        | .ok a => g a (log ++ [e])
        | .error err => (.error err, log ++ [e])) := by
  unfold Act.bind Act.call
  cases f (log ++ [e]) <;> rfl

theorem Act.bind_emit {β : Type} (e : Event) (g : Unit → Act β) (log : List Event) :
    Act.bind (Act.emit e) g log = g () (log ++ [e]) := rfl

theorem Act.bind_ret {α β : Type} (a : α) (g : α → Act β) (log : List Event) :
    Act.bind (Act.ret a) g log = g a log := rfl

theorem batch_shape (ext : Ext) (rowStep : HeaderMap → Str → Nat → Row → Act Unit)
    (ws : Worksheet)
    (hstep : ∀ token i r log,
      RowShape ext (batchHeader ws) log i (rowStep (batchHeader ws) token i r log))
    (log : List Event) : BatchShape ext rowStep ws log (batch ext rowStep ws log) := by
  have key : ∀ (token : Str) (pre : List Event),
      ∃ tail post,
        (Act.bind (batchLoop (rowStep (batchHeader ws) token) 2 ws.rows)
          (fun _ => Act.emit Event.writeFile) (log ++ pre)).2 = log ++ pre ++ tail ++ post
        ∧ (post = [] ∨ post = [.writeFile])
        ∧ BatchTrace ext (batchHeader ws) (rowStep (batchHeader ws) token) 2 ws.rows
            (log ++ pre) tail := by
    intro token pre
    obtain ⟨tail, h, t⟩ :=
      batchLoop_trace ext (batchHeader ws) (rowStep (batchHeader ws) token)
        (hstep token) ws.rows 2 (log ++ pre)
    unfold Act.bind
    rcases hres : batchLoop (rowStep (batchHeader ws) token) 2 ws.rows (log ++ pre)
      with ⟨res, log1⟩
    rw [hres] at h
    simp only at h
    subst h
    cases res with
    | error e => exact ⟨tail, [], by simp, Or.inl rfl, t⟩
    | ok u => exact ⟨tail, [.writeFile], by simp [Act.emit], Or.inr rfl, t⟩
  unfold batch BatchShape
  rw [Act.bind_call]
  cases ext.zToken (log ++ [Event.zToken]) with
  | error e => exact Or.inl rfl
  | ok token =>
    simp only []
    rw [Act.bind_call]
    cases ext.graphClient (log ++ [Event.zToken] ++ [Event.graphClient]) with
    | error e => exact Or.inr (Or.inl (by simp))
    | ok g =>
      simp only []
      refine Or.inr (Or.inr ?_)
      by_cases hl : lacksJoinUrl (buildHeaderMap ws.header) = true
      · rw [if_pos hl, Act.bind_emit]
        obtain ⟨tail, post, h1, h2, h3⟩ := key token [.zToken, .graphClient,
          .setCell 1 (ws.columnCount + 1) "JoinURL".toList]
        refine ⟨token, _, tail, post, ?_, Or.inr rfl, h2, h3⟩
        rw [← h1]
        simp
      · rw [if_neg hl, Act.bind_ret]
        obtain ⟨tail, post, h1, h2, h3⟩ := key token [.zToken, .graphClient]
        refine ⟨token, _, tail, post, ?_, Or.inl rfl, h2, h3⟩
        rw [← h1]
        simp

theorem run_object_emits_no_write (ext : Ext) (o : RunOpts) :
    Act.Emits (fun e => e.isWrite = false) (run ext (.object o)) := by
  unfold run runObject
  refine Act.Emits.bind (Act.Emits.emit (by rfl)) (fun _ => ?_)
  refine Act.Emits.bind (Act.Emits.call (by rfl) _) (fun token => ?_)
  refine Act.Emits.bind (Act.Emits.call (by rfl) _) (fun _ => ?_)
  refine Act.Emits.bind ?_ (fun _ => ?_)
  · split
    · exact Act.Emits.call (by rfl) _
    · exact Act.Emits.ret _ _
  · exact sendInvite_emits ext _ _ _ _ (by rfl) (fun _ _ => by rfl)

/-- C4 as stated fails on the interactive path: the commit of a session with one ready
row provisions the row and sends its invite, and writes no cell at all. -/
theorem interactive_commit_writes_no_cell :
    (process demoExt [("f1".toList, [demoStored "Sync"])] "f1".toList "zoom".toList [] []).1
      = some ⟨1, 0, []⟩
    ∧ ((process demoExt [("f1".toList, [demoStored "Sync"])] "f1".toList "zoom".toList []
        []).2.map (fun e => (e.isProvision, e.isInvite, e.isWrite)))
      = [(false, false, false), (false, false, false), (false, false, false),
         (true, false, false), (false, true, false), (false, true, false)] := by
  decide

/-- C4 (amended): in both command-line batches every iteration on a row `i` appends a
`RowTrace`: a row that is provisioned has its join-url cell, its booked cell and its commit
logged right after the provisioning call returned and before anything else of the row,
the invite included, while a row whose provisioning call fails has that call as its only
event, so that none of its cells is written, and a row that is not provisioned has no cell
written either. The log of a whole batch is the token call, the graph client call, the
`JoinURL` cell of the header row when that column is new, then for each row of the sheet
in turn what its one iteration appended, up to the first iteration that throws, then
`writeFile` or nothing (`BatchShape`), so that a cell of a data row is written nowhere
else. Object-mode `run`, the interactive path, writes no cell. -/
theorem cli_writes_back_before_invite (ext : Ext) (ws : Worksheet) (log : List Event) :
    (∀ token i r log0, ∃ tail,
        (cliRow ext (batchHeader ws) token i r log0).2 = log0 ++ tail
        ∧ RowTrace ext (batchHeader ws) log0 i tail)
    ∧ (∀ token i r log0, ∃ tail,
        (fileRow ext (batchHeader ws) token i r log0).2 = log0 ++ tail
        ∧ RowTrace ext (batchHeader ws) log0 i tail)
    ∧ BatchShape ext (cliRow ext) ws log (cliMain ext ws log)
    ∧ BatchShape ext (fileRow ext) ws log (run ext (.file ws) log)
    ∧ ∀ o, Act.Emits (fun e => e.isWrite = false) (run ext (.object o)) :=
  ⟨fun token i r log0 => cliRow_shape ext ws token i r log0,
   fun token i r log0 => fileRow_shape ext ws token i r log0,
   batch_shape ext (cliRow ext) ws (fun token i r log => cliRow_shape ext ws token i r log) log,
   batch_shape ext (fileRow ext) ws (fun token i r log => fileRow_shape ext ws token i r log)
     log,
   run_object_emits_no_write ext⟩

/-! ## Failure of a row in a command-line batch -/

/-- C5 fails on the code: on `demoFailingSheet` the provisioning call of row 3 is rejected,
and both command-line batches end with that error right there: row 4 is never read,
provisioned or invited, and `writeFile` is not reached. -/
theorem cli_batch_stops_at_first_failing_row :
    cliMain demoExt demoFailingSheet [] =
      (.error "Request failed with status code 400".toList,
       [.zToken, .graphClient, .setCell 1 17 "JoinURL".toList,
        .zCreate ⟨"token".toList, "Bad".toList, "2024-05-01T10:00:00".toList, .num 60,
          "Agenda".toList, some "zoom@example.org".toList⟩])
    ∧ run demoExt (.file demoFailingSheet) [] =
      (.error "Request failed with status code 400".toList,
       [.zToken, .graphClient, .setCell 1 17 "JoinURL".toList,
        .zCreate ⟨"token".toList, "Bad".toList, "2024-05-01T10:00:00".toList, .num 60,
          "Agenda".toList, some "zoom@example.org".toList⟩]) := by
  exact ⟨rfl, rfl⟩

/-! ## In-person rows and the location of the invite -/

theorem run_object_emits {P : Event → Prop} (ext : Ext) (o : RunOpts)
    (h0 : P (.run o)) (h1 : P .zToken) (h2 : P .graphClient)
    (h3 : o.meetingType ≠ "in-person".toList → ∀ req, P (.zCreate req))
    (h4 : ∀ row url att, P (.sendInvite row url att))
    (h5 : ∀ host url att, P (.post host (buildEvent ext
      { Topic := o.topic
        StartUTC := formatDateTime (ext.tz o.dateChosen)
        DurationMin := o.durationMin
        TeamName := o.teamName
        Location :=
          if truthy o.location then some o.location
          else some (if o.meetingType = "in-person".toList then "In person".toList
            else "Zoom".toList)
        meetingType := none } url att))) :
    Act.Emits P (run ext (.object o)) := by
  unfold run runObject
  refine Act.Emits.bind (Act.Emits.emit h0) (fun _ => ?_)
  refine Act.Emits.bind (Act.Emits.call h1 _) (fun token => ?_)
  refine Act.Emits.bind (Act.Emits.call h2 _) (fun _ => ?_)
  refine Act.Emits.bind ?_ (fun _ => ?_)
  · split
    · next h => exact Act.Emits.call (h3 h _) _
    · exact Act.Emits.ret _ _
  · refine sendInvite_emits ext _ _ _ _ (h4 _ _ _) (fun r hr => ?_)
    cases hr
    exact h5 _ _ _

theorem locationLine_of_location (row : InviteRow) (url loc : Str)
    (h1 : row.Location = some loc) (h2 : row.meetingType = none)
    (hz : loc ≠ "Zoom".toList) (hl : loc ≠ []) :
    locationLine row url = "<br>Location: ".toList ++ loc ++ "<br>".toList := by
  have a : decide (some loc = some "Zoom".toList) = false :=
    decide_eq_false (fun h => hz (Option.some.inj h))
  have b : decide ((none : Option Str) = some "zoom".toList) = false :=
    decide_eq_false (by intro h; cases h)
  have c : truthyOpt (some loc) = true := by
    unfold truthyOpt truthy
    exact decide_eq_true hl
  unfold locationLine
  rw [h1, h2]
  simp only [a, b, c, Bool.or_self, Bool.false_and, Bool.not_false, Bool.and_self,
    Bool.false_eq_true, ite_false, ite_true, Option.getD_some]

/-- C6 as stated fails for the location text `Zoom`: the in-person row is not provisioned,
and its invite has no location line at all. -/
theorem in_person_at_zoom_has_no_location_line :
    (run demoExt (.object (demoInPerson "Zoom")) []).2.filterMap
      (fun e => match e with
        | .zCreate _ => some []
        | .post _ body => some body.content
        | _ => none)
    = [("Dear Team A,<br>You are invited to a meeting for your team.<br>" ++
        "Meeting Day & Time: 2024-05-01 10:00<br>Best regards,<br>Berytech Team").toList] := by
  decide

/-- C6 (amended): object-mode `run` with meetingType `in-person` and a non-empty location
text other than `Zoom` makes no provisioning call, and every invite it posts has the line
`<br>Location: ` text `<br>` in its body; object-mode `run` with another meetingType and no
location posts only invites whose location display name is `Zoom`; and so is the display
name of every event that `sendInvite` builds for a row without location. -/
theorem in_person_location_and_zoom_fallback (ext : Ext) (o : RunOpts) :
    (o.meetingType = "in-person".toList → o.location ≠ [] → o.location ≠ "Zoom".toList →
      Act.Emits (fun e => e.isProvision = false ∧ ∀ host body, e = .post host body →
          ("<br>Location: ".toList ++ o.location ++ "<br>".toList) <:+: body.content)
        (run ext (.object o)))
    ∧ (o.meetingType ≠ "in-person".toList → o.location = [] →
      Act.Emits (fun e => ∀ host body, e = .post host body →
          body.locationDisplayName = "Zoom".toList)
        (run ext (.object o)))
    ∧ ∀ row joinUrl attendees, truthyOpt row.Location = false →
        (buildEvent ext row joinUrl attendees).locationDisplayName = "Zoom".toList := by
  refine ⟨fun hm hl hz => ?_, fun hm hl => ?_, fun row joinUrl attendees h => ?_⟩
  · have ht : truthy o.location = true := by
      unfold truthy
      exact decide_eq_true hl
    refine run_object_emits ext o ⟨rfl, by simp⟩ ⟨rfl, by simp⟩ ⟨rfl, by simp⟩
      (fun h => absurd hm h) (fun _ _ _ => ⟨rfl, by simp⟩) (fun host url att => ⟨rfl, ?_⟩)
    intro host1 body hb
    cases hb
    unfold buildEvent inviteBody
    simp only [ht, ite_true]
    rw [locationLine_of_location _ url o.location rfl rfl hz hl]
    exact ⟨"Dear ".toList ++ o.teamName ++
        ",<br>You are invited to a meeting for your team.<br>Meeting Day & Time: ".toList ++
        formatDayTime (ext.tz (formatDateTime (ext.tz o.dateChosen))),
      "<br>Best regards,<br>Berytech Team".toList, by simp only [List.append_assoc]⟩
  · have ht : truthy o.location = false := by
      unfold truthy
      exact decide_eq_false (by simp [hl])
    refine run_object_emits ext o (by simp) (by simp) (by simp) (by simp) (by simp)
      (fun host url att => ?_)
    intro host1 body hb
    cases hb
    unfold buildEvent
    simp only [ht, Bool.false_eq_true, ite_false, if_neg hm]
    rfl
  · unfold buildEvent
    simp only [h, Bool.false_eq_true, ite_false]

/-- C6 (amended), on an in-person row at `Room 4` and on a zoom row without location. -/
theorem in_person_location_and_zoom_fallback_witness :
    ((demoInPerson "Room 4").meetingType = "in-person".toList
      ∧ (demoInPerson "Room 4").location ≠ [] ∧ (demoInPerson "Room 4").location ≠ "Zoom".toList
      ∧ Act.Emits (fun e => e.isProvision = false ∧ ∀ host body, e = .post host body →
          ("<br>Location: ".toList ++ (demoInPerson "Room 4").location ++ "<br>".toList)
            <:+: body.content)
        (run demoExt (.object (demoInPerson "Room 4"))))
    ∧ ((optsOf (demoStored "Sync") "zoom".toList []).meetingType ≠ "in-person".toList
      ∧ (optsOf (demoStored "Sync") "zoom".toList []).location = []
      ∧ Act.Emits (fun e => ∀ host body, e = .post host body →
          body.locationDisplayName = "Zoom".toList)
        (run demoExt (.object (optsOf (demoStored "Sync") "zoom".toList []))))
    ∧ (run demoExt (.object (demoInPerson "Room 4")) []).2.filterMap
        (fun e => match e with
          | .zCreate _ => some []
          | .post _ body => some body.content
          | _ => none)
      = [("Dear Team A,<br>You are invited to a meeting for your team.<br>" ++
          "Meeting Day & Time: 2024-05-01 10:00<br>Location: Room 4<br>" ++
          "<br>Best regards,<br>Berytech Team").toList] :=
  ⟨⟨by decide, by decide, by decide,
      (in_person_location_and_zoom_fallback demoExt (demoInPerson "Room 4")).1
        (by decide) (by decide) (by decide)⟩,
   ⟨by decide, by decide,
      (in_person_location_and_zoom_fallback demoExt
        (optsOf (demoStored "Sync") "zoom".toList [])).2.1 (by decide) (by decide)⟩,
   by decide⟩

/-! ## Header resolver -/

theorem dropWhile_space_append_left (a s : Str) (ha : ∀ c ∈ a, isJsSpace c = true) :
    (a ++ s).dropWhile isJsSpace = s.dropWhile isJsSpace := by
  induction a with
  | nil => rfl
  | cons c cs ih =>
    have hc : isJsSpace c = true := ha c (List.mem_cons_self _ _)
    simp only [List.cons_append, List.dropWhile_cons, hc, ite_true]
    exact ih (fun d hd => ha d (List.mem_cons_of_mem _ hd))

theorem dropWhile_space_append_right (s b : Str) (hb : ∀ c ∈ b, isJsSpace c = true) :
    ((s ++ b).dropWhile isJsSpace).reverse.dropWhile isJsSpace
      = (s.dropWhile isJsSpace).reverse.dropWhile isJsSpace := by
  induction s with
  | nil =>
    have : b.dropWhile isJsSpace = [] := by
      rw [List.dropWhile_eq_nil_iff]; exact hb
    simp [this]
  | cons c cs ih =>
    by_cases hc : isJsSpace c = true
    · simp only [List.cons_append, List.dropWhile_cons, hc, ite_true]
      exact ih
    · simp only [List.cons_append, List.dropWhile_cons, hc]
      have : (c :: (cs ++ b)).reverse = b.reverse ++ (c :: cs).reverse := by simp
      simp only [Bool.false_eq_true, ite_false]
      rw [this, dropWhile_space_append_left _ _ (by simpa using hb)]

theorem trim_pad (a v b : Str) (ha : ∀ c ∈ a, isJsSpace c = true)
    (hb : ∀ c ∈ b, isJsSpace c = true) : trim (a ++ v ++ b) = trim v := by
  unfold trim
  rw [List.append_assoc, dropWhile_space_append_left _ _ ha, dropWhile_space_append_right _ _ hb]

theorem buildHeaderMapFrom_append (xs ys : List (Option Str)) :
    ∀ (i : Nat) (map : HeaderMap),
      buildHeaderMapFrom i (xs ++ ys) map
        = buildHeaderMapFrom (i + xs.length) ys (buildHeaderMapFrom i xs map) := by
  induction xs with
  | nil => intro i map; rfl
  | cons x xs ih =>
    intro i map
    cases x with
    | none =>
      show buildHeaderMapFrom (i + 1) (xs ++ ys) map = _
      rw [ih, List.length_cons, buildHeaderMapFrom]
      congr 1; omega
    | some v =>
      show buildHeaderMapFrom (i + 1) (xs ++ ys) _ = _
      rw [ih, List.length_cons, buildHeaderMapFrom]
      congr 1; omega

theorem buildHeaderMapFrom_get_other (k : Str) (vals : List (Option Str))
    (h : ∀ w ∈ vals, ∀ t, w = some t → toLowerCase (trim t) ≠ k) :
    ∀ (i : Nat) (map : HeaderMap), (buildHeaderMapFrom i vals map).get k = map.get k := by
  induction vals with
  | nil => intro i map; rfl
  | cons x xs ih =>
    intro i map
    have hxs : ∀ w ∈ xs, ∀ t, w = some t → toLowerCase (trim t) ≠ k :=
      fun w hw => h w (List.mem_cons_of_mem _ hw)
    cases x with
    | none => simp only [buildHeaderMapFrom]; exact ih hxs _ _
    | some v =>
      have hv : toLowerCase (trim v) ≠ k := h (some v) (List.mem_cons_self _ _) v rfl
      simp only [buildHeaderMapFrom]
      rw [ih hxs]
      split
      · simp [HeaderMap.set, HeaderMap.get, hv]
      · rfl

/-- C7 as stated fails on the lookup side: `col` lower-cases the name it is given and does
not trim it, so a name with surrounding whitespace resolves to no column. -/
theorem col_does_not_trim_the_name :
    col (buildHeaderMap [some "Meeting Name".toList]) "Meeting Name".toList = some 1
    ∧ col (buildHeaderMap [some "Meeting Name".toList]) "meeting name".toList = some 1
    ∧ col (buildHeaderMap [some "Meeting Name".toList]) " Meeting Name ".toList = none := by
  decide

/-- C7 (amended): a header cell resolves whatever its letter case and surrounding
whitespace, and a lookup name whatever its letter case. If the cell of column
`pre.length + 1` holds `v` between whitespace `a` and `b`, `v` is not blank, and no later cell
has the same trimmed lower-cased text, then every `name` whose lower-cased form is the
trimmed lower-cased `v` resolves to that column; and two names that differ in letter case
only resolve alike in every header map. -/
theorem header_lookup_ignores_case_and_header_whitespace (pre post : List (Option Str))
    (a v b name : Str)
    (ha : ∀ c ∈ a, isJsSpace c = true) (hb : ∀ c ∈ b, isJsSpace c = true)
    (hv : toLowerCase (trim v) ≠ [])
    (hlast : ∀ w ∈ post, ∀ t, w = some t → toLowerCase (trim t) ≠ toLowerCase (trim v))
    (hn : toLowerCase name = toLowerCase (trim v)) :
    col (buildHeaderMap (pre ++ some (a ++ v ++ b) :: post)) name = some (pre.length + 1)
    ∧ ∀ (header : HeaderMap) (n1 n2 : Str), toLowerCase n1 = toLowerCase n2 →
        col header n1 = col header n2 := by
  constructor
  · unfold col buildHeaderMap
    rw [buildHeaderMapFrom_append, hn]
    simp only [buildHeaderMapFrom, trim_pad a v b ha hb, ne_eq, hv, not_false_eq_true, ite_true]
    rw [buildHeaderMapFrom_get_other _ _ hlast]
    simp [HeaderMap.set, HeaderMap.get, Nat.add_comm]
  · intro header n1 n2 h
    unfold col
    rw [h]

/-- C7 (amended), on the header cell ` Meeting Name ` in column 2 and the name
`MEETING NAME`. -/
theorem header_lookup_ignores_case_and_header_whitespace_witness :
    (∀ c ∈ " ".toList, isJsSpace c = true) ∧ (∀ c ∈ "\t".toList, isJsSpace c = true)
    ∧ toLowerCase (trim "Meeting Name".toList) ≠ []
    ∧ (∀ w ∈ [some "Date Chosen".toList], ∀ t, w = some t →
        toLowerCase (trim t) ≠ toLowerCase (trim "Meeting Name".toList))
    ∧ toLowerCase "MEETING NAME".toList = toLowerCase (trim "Meeting Name".toList)
    ∧ col (buildHeaderMap ([none] ++
        some (" ".toList ++ "Meeting Name".toList ++ "\t".toList) :: [some "Date Chosen".toList]))
        "MEETING NAME".toList = some ([(none : Option Str)].length + 1) :=
  ⟨by decide, by decide, by decide, by decide, by decide,
    (header_lookup_ignores_case_and_header_whitespace [none] [some "Date Chosen".toList]
      " ".toList "Meeting Name".toList "\t".toList "MEETING NAME".toList
      (by decide) (by decide) (by decide) (by decide) (by decide)).1⟩

/-! ## Calendar arithmetic -/

theorem yearOfEra_step (doe : Nat) (h : doe + 1 < 146097) :
    yearOfEra doe ≤ yearOfEra (doe + 1) := by
  unfold yearOfEra
  omega

theorem yearOfEra_mono {a b : Nat} (hab : a ≤ b) (hb : b < 146097) :
    yearOfEra a ≤ yearOfEra b := by
  induction b with
  | zero =>
    have : a = 0 := by omega
    subst this; exact le_refl _
  | succ k ih =>
    by_cases hk : a = k + 1
    · subst hk; exact le_refl _
    · exact le_trans (ih (by omega) (by omega)) (yearOfEra_step k hb)

set_option maxRecDepth 100000 in
theorem yearOfEra_table :
    ∀ y < 400, yearOfEra (yearStart y) = y ∧ yearOfEra (yearStart (y + 1) - 1) = y := by
  decide

theorem dayOfYear_bounds (doe : Nat) (h : doe < 146097) :
    yearStart (yearOfEra doe) ≤ doe ∧ doe ≤ yearStart (yearOfEra doe) + 365 := by
  have hy : yearOfEra doe < 400 := by unfold yearOfEra; omega
  obtain ⟨t1, t2⟩ := yearOfEra_table (yearOfEra doe) hy
  have hsb : ∀ y, y ≤ 400 → yearStart y ≤ 146097 := by
    intro y hy; unfold yearStart; omega
  constructor
  · by_contra hlt
    push_neg at hlt
    by_cases h0 : yearOfEra doe = 0
    · rw [h0] at hlt; simp [yearStart] at hlt
    · obtain ⟨_, p2⟩ := yearOfEra_table (yearOfEra doe - 1) (by omega)
      have e1 : yearOfEra doe - 1 + 1 = yearOfEra doe := by omega
      rw [e1] at p2
      have hb := hsb (yearOfEra doe) (by omega)
      have := yearOfEra_mono (a := doe) (b := yearStart (yearOfEra doe) - 1) (by omega) (by omega)
      omega
  · by_contra hgt
    push_neg at hgt
    have hs : yearStart (yearOfEra doe + 1) ≤ yearStart (yearOfEra doe) + 366 := by
      unfold yearStart; omega
    by_cases h399 : yearOfEra doe = 399
    · rw [h399] at hgt; simp [yearStart] at hgt; omega
    · obtain ⟨p1, _⟩ := yearOfEra_table (yearOfEra doe + 1) (by omega)
      have := yearOfEra_mono (a := yearStart (yearOfEra doe + 1)) (b := doe) (by omega) h
      omega

theorem dayOfYear_bounds_int (doe : Int) (h0 : 0 ≤ doe) (h : doe < 146097) :
    0 ≤ doe - (365 * ((doe - doe / 1460 + doe / 36524 - doe / 146096) / 365)
        + (doe - doe / 1460 + doe / 36524 - doe / 146096) / 365 / 4
        - (doe - doe / 1460 + doe / 36524 - doe / 146096) / 365 / 100)
    ∧ doe - (365 * ((doe - doe / 1460 + doe / 36524 - doe / 146096) / 365)
        + (doe - doe / 1460 + doe / 36524 - doe / 146096) / 365 / 4
        - (doe - doe / 1460 + doe / 36524 - doe / 146096) / 365 / 100) ≤ 365 := by
  obtain ⟨n, rfl⟩ := Int.eq_ofNat_of_zero_le h0
  obtain ⟨b1, b2⟩ := dayOfYear_bounds n (by omega)
  unfold yearStart yearOfEra at b1 b2
  have hy : (((n - n / 1460 + n / 36524 - n / 146096) / 365 : Nat) : Int)
      = ((n : Int) - n / 1460 + n / 36524 - n / 146096) / 365 := by omega
  generalize (n - n / 1460 + n / 36524 - n / 146096) / 365 = yn at *
  have b1i : 365 * (yn : Int) + (yn : Int) / 4 - (yn : Int) / 100 ≤ n := by omega
  have b2i : (n : Int) ≤ 365 * (yn : Int) + (yn : Int) / 4 - (yn : Int) / 100 + 365 := by omega
  rw [hy] at b1i b2i
  constructor <;> omega

theorem daysFromCivil_civilFromDays (z : Int) :
    daysFromCivil (civilFromDays z).1 (civilFromDays z).2.1 (civilFromDays z).2.2 = z := by
  have hdoe0 : 0 ≤ (z + 719468) % 146097 ∧ (z + 719468) % 146097 < 146097 := by omega
  have hb := dayOfYear_bounds_int ((z + 719468) % 146097) hdoe0.1 hdoe0.2
  unfold daysFromCivil civilFromDays
  simp only []
  generalize hz1 : z + 719468 = z1 at *
  generalize hera : z1 / 146097 = era
  generalize hdoe : z1 % 146097 = doe at *
  generalize hyoe2 : (doe - doe / 1460 + doe / 36524 - doe / 146096) / 365 = yoe at *
  generalize hdoy : doe - (365 * yoe + yoe / 4 - yoe / 100) = doy at *
  have hyoe0 : 0 ≤ yoe ∧ yoe ≤ 399 := by omega
  generalize hmp : (5 * doy + 2) / 153 = mp
  have hmp0 : 0 ≤ mp ∧ mp ≤ 11 := by omega
  have hera2 : (yoe + era * 400) / 400 = era := by omega
  have hyoe3 : (yoe + era * 400) % 400 = yoe := by omega
  split_ifs
  all_goals simp only [add_sub_cancel_right, hera2, hyoe3]
  all_goals omega

theorem civilFromDays_ranges (z : Int) :
    1 ≤ (civilFromDays z).2.1 ∧ (civilFromDays z).2.1 ≤ 12
    ∧ 1 ≤ (civilFromDays z).2.2 ∧ (civilFromDays z).2.2 ≤ 31 := by
  have hdoe0 : 0 ≤ (z + 719468) % 146097 ∧ (z + 719468) % 146097 < 146097 := by omega
  have hb := dayOfYear_bounds_int ((z + 719468) % 146097) hdoe0.1 hdoe0.2
  unfold civilFromDays
  simp only []
  generalize hz1 : z + 719468 = z1 at *
  generalize hdoe : z1 % 146097 = doe at *
  generalize hyoe2 : (doe - doe / 1460 + doe / 36524 - doe / 146096) / 365 = yoe at *
  generalize hdoy : doe - (365 * yoe + yoe / 4 - yoe / 100) = doy at *
  generalize hmp : (5 * doy + 2) / 153 = mp
  have hmp0 : 0 ≤ mp ∧ mp ≤ 11 := by omega
  split_ifs <;> omega

theorem ofCivil_toCivil (t : Int) : ofCivil (toCivil t) = t := by
  unfold ofCivil toCivil
  simp only [daysFromCivil_civilFromDays]
  omega

theorem toCivil_ranges (t : Int) :
    1 ≤ (toCivil t).month ∧ (toCivil t).month ≤ 12
    ∧ 1 ≤ (toCivil t).day ∧ (toCivil t).day ≤ 31
    ∧ 0 ≤ (toCivil t).hour ∧ (toCivil t).hour < 24
    ∧ 0 ≤ (toCivil t).minute ∧ (toCivil t).minute < 60
    ∧ 0 ≤ (toCivil t).second ∧ (toCivil t).second < 60 := by
  obtain ⟨h1, h2, h3, h4⟩ := civilFromDays_ranges (t / 86400)
  unfold toCivil
  simp only []
  refine ⟨h1, h2, h3, h4, ?_, ?_, ?_, ?_, ?_, ?_⟩ <;> omega

/-- C8: when the row's start text is a valid date and its DurationMin is a number `n`,
the event's start and end are written in zone `Asia/Beirut` as the calendar fields of the
start instant and of the instant `n` minutes later; these fields are those of no other
instant (`ofCivil` recovers it), so the end is the start plus `n` minutes across any
change of day, month or year, and its fields are in their calendar ranges. -/
theorem invite_end_is_start_plus_duration (ext : Ext) (row : InviteRow) (joinUrl : Str)
    (attendees : List Str) (s n : Int)
    (hs : ext.tz row.StartUTC = some s) (hn : toNumber row.DurationMin = some n) :
    (buildEvent ext row joinUrl attendees).startTimeZone = "Asia/Beirut".toList
    ∧ (buildEvent ext row joinUrl attendees).endTimeZone = "Asia/Beirut".toList
    ∧ (buildEvent ext row joinUrl attendees).startDateTime = isoCivil (toCivil s)
    ∧ (buildEvent ext row joinUrl attendees).endDateTime = isoCivil (toCivil (s + 60 * n))
    ∧ ofCivil (toCivil (s + 60 * n)) = ofCivil (toCivil s) + 60 * n
    ∧ (1 ≤ (toCivil (s + 60 * n)).month ∧ (toCivil (s + 60 * n)).month ≤ 12
      ∧ 1 ≤ (toCivil (s + 60 * n)).day ∧ (toCivil (s + 60 * n)).day ≤ 31
      ∧ 0 ≤ (toCivil (s + 60 * n)).hour ∧ (toCivil (s + 60 * n)).hour < 24
      ∧ 0 ≤ (toCivil (s + 60 * n)).minute ∧ (toCivil (s + 60 * n)).minute < 60
      ∧ 0 ≤ (toCivil (s + 60 * n)).second ∧ (toCivil (s + 60 * n)).second < 60) := by
  refine ⟨rfl, rfl, ?_, ?_, ?_, toCivil_ranges _⟩
  · simp only [buildEvent, hs, formatDateTime]
  · simp only [buildEvent, hs, hn, addMinutes, formatDateTime]
  · rw [ofCivil_toCivil, ofCivil_toCivil]

/-- C8, at start 23:30 on 2024-05-01 with a duration of 90 minutes: the end is 01:00 on the
next calendar day. -/
theorem invite_end_is_start_plus_duration_witness :
    demoExt.tz "2024-05-01T23:30:00".toList = some 1714606200
    ∧ toNumber (.num 90) = some 90
    ∧ (buildEvent demoExt ⟨"Sync".toList, "2024-05-01T23:30:00".toList, .num 90,
        "Team A".toList, none, none⟩ [] []).startDateTime = "2024-05-01T23:30:00".toList
    ∧ (buildEvent demoExt ⟨"Sync".toList, "2024-05-01T23:30:00".toList, .num 90,
        "Team A".toList, none, none⟩ [] []).endDateTime = "2024-05-02T01:00:00".toList
    ∧ (buildEvent demoExt ⟨"Sync".toList, "2024-05-01T23:30:00".toList, .num 90,
        "Team A".toList, none, none⟩ [] []).endDateTime
        = isoCivil (toCivil (1714606200 + 60 * 90)) :=
  ⟨by decide, by decide, by decide, by decide,
    (invite_end_is_start_plus_duration demoExt ⟨"Sync".toList, "2024-05-01T23:30:00".toList,
      .num 90, "Team A".toList, none, none⟩ [] [] 1714606200 90 (by decide)
      (by decide)).2.2.2.1⟩

/-! ## Rows whose date does not parse -/

/-- C9 as stated fails on upload: the row whose Date Chosen text is empty, which no date
parser accepts, is not skipped; it is stored, with `Date Chosen` in its missing list. -/
theorem upload_keeps_row_with_empty_date :
    demoExt.tz [] = none
    ∧ (validate demoExt (demoSheet [[], demoRow "Plan" "" emptyCell ""])).rows.map
        (fun row => (row.topic, row.dateChosen, row.missing))
      = [("Plan".toList, [], ["Date Chosen".toList])] := by
  decide

/-- C9 (amended): in both command-line batches a row that is not booked and whose Date
Chosen text fails to parse is skipped with a warning and nothing else (no provisioning, no
write-back, no invite), so that the loop goes on; on upload a row that is not booked and
whose Date Chosen text is empty is not skipped: it is stored with `Date Chosen` in its
missing list, hence not ready. -/
theorem unparsable_date_is_skipped_by_the_batches (ext : Ext) (header : HeaderMap)
    (token : Str) (i : Nat) (r : Row) (log : List Event) (booked topic date : Cell)
    (hb : getCell r (col header "meeting booked".toList) = .ok booked)
    (hnb : toLowerCase booked.text ≠ "yes".toList)
    (ht : getCell r (col header "meeting name".toList) = .ok topic)
    (hd : getCell r (col header "date chosen".toList) = .ok date)
    (hinv : ext.tz date.text = none) :
    cliRow ext header token i r log = (.ok (), log ++ [.warn i date.text])
    ∧ fileRow ext header token i r log = (.ok (), log ++ [.warn i date.text])
    ∧ ∀ (header1 : HeaderMap) (r1 : Row) (st : UploadState),
        toLowerCase (getCellText header1 "meeting booked".toList r1) ≠ "yes".toList →
        getCellText header1 "date chosen".toList r1 = [] →
        (uploadRow ext header1 r1 st).rows = st.rows ++ [uploadRecord ext header1 r1]
        ∧ "Date Chosen".toList ∈ (uploadRecord ext header1 r1).missing
        ∧ isReady (uploadRecord ext header1 r1) = false := by
  refine ⟨?_, ?_, fun header1 r1 st h1 h2 => ?_⟩
  · unfold cliRow
    simp only [Act.bind, Act.lift, hb, hnb, ht, hd, hinv, ite_false, Option.isNone_none,
      ite_true, Act.emit]
  · unfold fileRow
    simp only [Act.bind, Act.lift, hb, hnb, ht, hd, hinv, ite_false, Option.isNone_none,
      ite_true, Act.emit]
  · have hm := uploadRecord_empty_date ext header1 r1 h2
    refine ⟨uploadRow_pushes ext header1 r1 st h1, hm, ?_⟩
    unfold isReady
    cases hmiss : (uploadRecord ext header1 r1).missing with
    | nil => rw [hmiss] at hm; exact absurd hm (List.not_mem_nil _)
    | cons x xs => simp

/-- C9 (amended), on row 3 of `demoBadDates`, whose Date Chosen is `next Tuesday`. -/
theorem unparsable_date_is_skipped_by_the_batches_witness :
    getCell (demoRow "Sync" "next Tuesday" emptyCell "")
        (col (batchHeader demoBadDates) "meeting booked".toList) = .ok emptyCell
    ∧ toLowerCase emptyCell.text ≠ "yes".toList
    ∧ getCell (demoRow "Sync" "next Tuesday" emptyCell "")
        (col (batchHeader demoBadDates) "meeting name".toList) = .ok (textCell "Sync")
    ∧ getCell (demoRow "Sync" "next Tuesday" emptyCell "")
        (col (batchHeader demoBadDates) "date chosen".toList) = .ok (textCell "next Tuesday")
    ∧ demoExt.tz (textCell "next Tuesday").text = none
    ∧ cliRow demoExt (batchHeader demoBadDates) "token".toList 3
        (demoRow "Sync" "next Tuesday" emptyCell "") []
      = (.ok (), [] ++ [.warn 3 (textCell "next Tuesday").text]) :=
  ⟨rfl, by decide, rfl, rfl, by decide,
    (unparsable_date_is_skipped_by_the_batches demoExt (batchHeader demoBadDates)
      "token".toList 3 (demoRow "Sync" "next Tuesday" emptyCell "") [] emptyCell
      (textCell "Sync") (textCell "next Tuesday") rfl (by decide) rfl rfl (by decide)).1⟩

/-! ## Duration -/

/-- C10 fails on the code: for a row whose duration cell is empty the command-line batch
passes 60 to `zCreate` and ends the invite 60 minutes after its start, whereas the
interactive path passes the raw cell value `null` and ends the invite at its start; and
`+value || 60` keeps a negative value. -/
theorem interactive_path_has_no_default_duration :
    durationsAndEnds (cliMain demoExt demoNoDuration []).2
      = [(.num 60, []), (.undefined, "2024-05-01T11:00:00".toList)]
    ∧ durationsAndEnds
        (process demoExt (upload demoExt [] "f1".toList demoNoDuration) "f1".toList
          "zoom".toList [] []).2
      = [(.null, []), (.undefined, "2024-05-01T10:00:00".toList)]
    ∧ numberOr60 (.num (-5)) = -5 := by
  decide

/-! ## Participant list -/

theorem splitOnP_ne_nil (p : Char → Bool) (s : Str) : splitOnP p s ≠ [] := by
  cases s with
  | nil => simp [splitOnP]
  | cons c cs =>
    unfold splitOnP
    split
    · simp
    · split <;> simp

theorem splitOnP_cons (p : Char → Bool) (c : Char) (cs : Str) :
    ∃ piece rest, splitOnP p cs = piece :: rest
      ∧ splitOnP p (c :: cs) = if p c then [] :: piece :: rest else (c :: piece) :: rest := by
  cases h : splitOnP p cs with
  | nil => exact absurd h (splitOnP_ne_nil p cs)
  | cons piece rest =>
    refine ⟨piece, rest, rfl, ?_⟩
    rw [splitOnP, h]

theorem splitOnP_append_sep (p : Char → Bool) (a b : Str) (c : Char) (hc : p c = true) :
    splitOnP p (a ++ c :: b) = splitOnP p a ++ splitOnP p b := by
  induction a with
  | nil =>
    obtain ⟨piece, rest, h1, h2⟩ := splitOnP_cons p c b
    simp only [List.nil_append, h2, hc, ite_true, h1, splitOnP, List.singleton_append]
  | cons x xs ih =>
    obtain ⟨q, qs, h1, h2⟩ := splitOnP_cons p x xs
    obtain ⟨q1, qs1, h3, h4⟩ := splitOnP_cons p x (xs ++ c :: b)
    rw [List.cons_append, h4, h2]
    rw [ih, h1, List.cons_append] at h3
    injection h3 with e1 e2
    subst e1 e2
    split <;> rfl

theorem splitOnP_no_sep (p : Char → Bool) (s : Str) :
    ∀ piece ∈ splitOnP p s, ∀ c ∈ piece, p c = false := by
  induction s with
  | nil => intro piece h c hc; simp [splitOnP] at h; subst h; simp at hc
  | cons x xs ih =>
    obtain ⟨q, qs, h1, h2⟩ := splitOnP_cons p x xs
    rw [h1] at ih
    intro piece h c hc
    by_cases hx : p x = true
    · rw [h2, if_pos hx] at h
      rcases List.mem_cons.mp h with e | e
      · subst e; simp at hc
      · exact ih piece e c hc
    · rw [h2, if_neg hx] at h
      rcases List.mem_cons.mp h with e | e
      · subst e
        rcases List.mem_cons.mp hc with e1 | e1
        · subst e1; simpa using hx
        · exact ih q (List.mem_cons_self _ _) c e1
      · exact ih piece (List.mem_cons_of_mem _ e) c hc

theorem parseEmails_append_sep (a b : Str) (c : Char) (hc : (c = ',' || c = ';') = true) :
    parseEmails (a ++ c :: b) = parseEmails a ++ parseEmails b := by
  unfold parseEmails
  rw [splitOnP_append_sep _ a b c (by simpa using hc), List.map_append, List.filter_append]

theorem parseEmails_joinWith_comma (texts : List Str) :
    parseEmails (joinWith ",".toList texts) = texts.flatMap parseEmails := by
  induction texts with
  | nil => rfl
  | cons t ts ih =>
    cases ts with
    | nil => simp [joinWith]
    | cons u us =>
      have : joinWith ",".toList (t :: u :: us) = t ++ ',' :: joinWith ",".toList (u :: us) := by
        simp [joinWith]
      rw [this, parseEmails_append_sep t _ ',' (by decide), ih]
      simp [List.flatMap_cons]

theorem mem_of_mem_trim {c : Char} {s : Str} (h : c ∈ trim s) : c ∈ s := by
  unfold trim at h
  rw [List.mem_reverse] at h
  have h1 := (List.dropWhile_sublist isJsSpace).subset h
  rw [List.mem_reverse] at h1
  exact (List.dropWhile_sublist isJsSpace).subset h1

theorem trim_eq_rdropWhile (s : Str) :
    trim s = (s.dropWhile isJsSpace).rdropWhile isJsSpace := rfl

theorem trim_head_not_space (s : Str) (c : Char) (h : (trim s).head? = some c) :
    isJsSpace c = false := by
  have hne : trim s ≠ [] := by intro e; rw [e] at h; simp at h
  have hpre : trim s <+: s.dropWhile isJsSpace := by
    rw [trim_eq_rdropWhile]; exact List.rdropWhile_prefix _ _
  have hd : s.dropWhile isJsSpace ≠ [] := by
    intro e; rw [e] at hpre; exact hne (List.prefix_nil.mp hpre)
  have h1 := hpre.head hne
  have h2 := List.head_dropWhile_not isJsSpace s hd
  rw [List.head?_eq_head hne] at h
  injection h with h
  rw [← h, h1]
  exact h2

theorem trim_last_not_space (s : Str) (c : Char) (h : (trim s).getLast? = some c) :
    isJsSpace c = false := by
  have hne : trim s ≠ [] := by intro e; rw [e] at h; simp at h
  rw [List.getLast?_eq_getLast _ hne] at h
  injection h with h
  have := List.rdropWhile_last_not (p := isJsSpace) (l := s.dropWhile isJsSpace) hne
  rw [← h]
  simpa [trim_eq_rdropWhile] using this

theorem trim_eq_self {x : Str} (hh : ∀ c, x.head? = some c → isJsSpace c = false)
    (hl : ∀ c, x.getLast? = some c → isJsSpace c = false) : trim x = x := by
  have h1 : x.dropWhile isJsSpace = x := by
    cases x with
    | nil => rfl
    | cons c cs => simp [List.dropWhile_cons, hh c rfl]
  have h2 : x.rdropWhile isJsSpace = x := by
    rw [List.rdropWhile_eq_self_iff]
    intro hne
    have := hl (x.getLast hne) (List.getLast?_eq_getLast _ hne)
    simp [this]
  rw [trim_eq_rdropWhile, h1, h2]

theorem trim_trim (s : Str) : trim (trim s) = trim s :=
  trim_eq_self (trim_head_not_space s) (trim_last_not_space s)

theorem specParticipants_eq (texts : List Str) :
    specParticipants texts = parseEmails (joinWith ",".toList texts) := by
  rw [parseEmails_joinWith_comma]
  rfl

theorem parseEmails_entry (text x : Str) (hx : x ∈ parseEmails text) :
    x ≠ []
    ∧ (∀ c, x.head? = some c → isJsSpace c = false)
    ∧ (∀ c, x.getLast? = some c → isJsSpace c = false)
    ∧ ∀ c ∈ x, c ≠ ',' ∧ c ≠ ';' := by
  have hne := parseEmails_ne_nil text x hx
  unfold parseEmails at hx
  obtain ⟨piece, hp, rfl⟩ := List.mem_map.mp (List.mem_filter.mp hx).1
  refine ⟨hne, trim_head_not_space piece, trim_last_not_space piece, fun c hc => ?_⟩
  have := splitOnP_no_sep _ text piece hp c (mem_of_mem_trim hc)
  simpa using this

theorem getCellText_of_getCell {header : HeaderMap} {name : Str} {r : Row} {cell : Cell}
    (h : getCell r (col header name) = .ok cell) : getCellText header name r = cell.text := by
  unfold getCell at h
  unfold getCellText
  split at h
  · exact absurd h (by simp)
  · exact absurd h (by simp)
  · injection h with h
    rw [← h]

/-- C11: the participant list is that of the spec (`specParticipants`): the pieces of the
six texts, split on commas and semicolons, trimmed, empty ones dropped, in column order and
then in order of appearance, duplicates kept. The command-line batches build it from the
six cells once these are read, the upload from the six `getCellText` values; and no entry
is empty, starts or ends with whitespace, or contains a comma or a semicolon. -/
theorem participants_are_the_trimmed_pieces_in_column_order (header : HeaderMap) (r : Row)
    (a b c d e f : Cell)
    (ha : getCell r (col header "team invitees".toList) = .ok a)
    (hb : getCell r (col header "added invitee 1".toList) = .ok b)
    (hc : getCell r (col header "added invitee 2".toList) = .ok c)
    (hd : getCell r (col header "added invitee 3".toList) = .ok d)
    (he : getCell r (col header "added invitee 4".toList) = .ok e)
    (hf : getCell r (col header "email from form".toList) = .ok f) :
    cliParticipants header r
      = .ok (specParticipants [a.text, b.text, c.text, d.text, e.text, f.text])
    ∧ uploadParticipants header r
      = specParticipants [a.text, b.text, c.text, d.text, e.text, f.text]
    ∧ (∀ (header1 : HeaderMap) (r1 : Row), uploadParticipants header1 r1
      = specParticipants
          [ getCellText header1 "team invitees".toList r1,
            getCellText header1 "added invitee 1".toList r1,
            getCellText header1 "added invitee 2".toList r1,
            getCellText header1 "added invitee 3".toList r1,
            getCellText header1 "added invitee 4".toList r1,
            getCellText header1 "email from form".toList r1 ])
    ∧ ∀ (texts : List Str), ∀ x ∈ specParticipants texts,
        x ≠ []
        ∧ (∀ ch, x.head? = some ch → isJsSpace ch = false)
        ∧ (∀ ch, x.getLast? = some ch → isJsSpace ch = false)
        ∧ ∀ ch ∈ x, ch ≠ ',' ∧ ch ≠ ';' := by
  refine ⟨?_, ?_, fun header1 r1 => ?_, fun texts x hx => ?_⟩
  · unfold cliParticipants
    simp only [ha, hb, hc, hd, he, hf, Except.bind, specParticipants_eq]
  · unfold uploadParticipants
    rw [getCellText_of_getCell ha, getCellText_of_getCell hb, getCellText_of_getCell hc,
      getCellText_of_getCell hd, getCellText_of_getCell he, getCellText_of_getCell hf,
      specParticipants_eq]
  · unfold uploadParticipants
    rw [specParticipants_eq]
  · rw [specParticipants_eq] at hx
    exact parseEmails_entry _ x hx

/-- C11, on a row whose texts are `b@x.com; a@x.com`, ` a@x.com ,`, four empty cells. -/
theorem participants_are_the_trimmed_pieces_in_column_order_witness :
    getCell [textCell "b@x.com; a@x.com", textCell " a@x.com ,"]
        (col (buildHeaderMap [some "Team invitees".toList, some "Added Invitee 1".toList,
          some "Added Invitee 2".toList, some "Added Invitee 3".toList,
          some "Added Invitee 4".toList, some "Email from form".toList])
          "team invitees".toList) = .ok (textCell "b@x.com; a@x.com")
    ∧ cliParticipants
        (buildHeaderMap [some "Team invitees".toList, some "Added Invitee 1".toList,
          some "Added Invitee 2".toList, some "Added Invitee 3".toList,
          some "Added Invitee 4".toList, some "Email from form".toList])
        [textCell "b@x.com; a@x.com", textCell " a@x.com ,"]
      = .ok (specParticipants [(textCell "b@x.com; a@x.com").text, (textCell " a@x.com ,").text,
          emptyCell.text, emptyCell.text, emptyCell.text, emptyCell.text])
    ∧ specParticipants [(textCell "b@x.com; a@x.com").text, (textCell " a@x.com ,").text,
          emptyCell.text, emptyCell.text, emptyCell.text, emptyCell.text]
      = ["b@x.com".toList, "a@x.com".toList, "a@x.com".toList] :=
  ⟨rfl,
    (participants_are_the_trimmed_pieces_in_column_order
      (buildHeaderMap [some "Team invitees".toList, some "Added Invitee 1".toList,
        some "Added Invitee 2".toList, some "Added Invitee 3".toList,
        some "Added Invitee 4".toList, some "Email from form".toList])
      [textCell "b@x.com; a@x.com", textCell " a@x.com ,"]
      (textCell "b@x.com; a@x.com") (textCell " a@x.com ,") emptyCell emptyCell emptyCell
      emptyCell rfl rfl rfl rfl rfl rfl).1,
    by decide⟩

/-! ## Participants from validation to commit -/

theorem splitOnP_of_no_sep (p : Char → Bool) (s : Str) (h : ∀ c ∈ s, p c = false) :
    splitOnP p s = [s] := by
  induction s with
  | nil => rfl
  | cons x xs ih =>
    obtain ⟨q, qs, h1, h2⟩ := splitOnP_cons p x xs
    have hx : ¬ p x = true := by simp [h x (List.mem_cons_self _ _)]
    rw [ih (fun c hc => h c (List.mem_cons_of_mem _ hc))] at h1
    injection h1 with e1 e2
    subst e1 e2
    rw [h2, if_neg hx]

theorem map_trim_splitOnP_space (p : Char → Bool) (hp : p ' ' = false) (s : Str) :
    (splitOnP p (' ' :: s)).map trim = (splitOnP p s).map trim := by
  obtain ⟨q, qs, h1, h2⟩ := splitOnP_cons p ' ' s
  have hx : ¬ p ' ' = true := by simp [hp]
  rw [h2, if_neg hx, h1, List.map_cons, List.map_cons]
  have : trim (' ' :: q) = trim q := by
    have := trim_pad [' '] q [] (by decide) (by simp)
    simpa using this
  rw [this]

theorem splitAttendees_joinWith (ps : List Str)
    (h : ∀ x ∈ ps, x ≠ [] ∧ trim x = x ∧ ∀ c ∈ x, c ≠ ',') :
    splitAttendees (joinWith ", ".toList ps) = ps := by
  induction ps with
  | nil => rfl
  | cons x rest ih =>
    obtain ⟨hne, htrim, hcomma⟩ := h x (List.mem_cons_self _ _)
    have hsplit : splitOnP (fun c => decide (c = ',')) x = [x] :=
      splitOnP_of_no_sep _ x (fun c hc => by simpa using hcomma c hc)
    cases rest with
    | nil =>
      show splitAttendees x = [x]
      unfold splitAttendees
      rw [hsplit]
      simp [htrim, hne]
    | cons y ys =>
      have ih1 := ih (fun z hz => h z (List.mem_cons_of_mem _ hz))
      have hj : joinWith ", ".toList (x :: y :: ys)
          = x ++ ',' :: ' ' :: joinWith ", ".toList (y :: ys) := by
        simp [joinWith]
      unfold splitAttendees at ih1 ⊢
      rw [hj, splitOnP_append_sep _ x _ ',' (by decide), hsplit, List.map_append,
        map_trim_splitOnP_space _ (by decide), List.filter_append, ih1]
      simp [htrim, hne]

theorem parseEmails_trimmed (text x : Str) (hx : x ∈ parseEmails text) :
    x ≠ [] ∧ trim x = x ∧ ∀ c ∈ x, c ≠ ',' := by
  obtain ⟨h1, h2, h3, h4⟩ := parseEmails_entry text x hx
  exact ⟨h1, trim_eq_self h2 h3, fun c hc => (h4 c hc).1⟩

/-- C12: joining a participant list that `parseEmails` produced with `, ` and then splitting
on commas, trimming and dropping empty pieces gives the list back, entry for entry; so
the string stored for a row at upload splits at commit into the participants parsed at
upload, and these are the attendees of every `sendInvite` call and of every event that
the commit of that row posts. -/
theorem commit_attendees_are_the_parsed_participants (ext : Ext) (header : HeaderMap)
    (r : Row) (meetingType location : Str) :
    (∀ text, splitAttendees (joinWith ", ".toList (parseEmails text)) = parseEmails text)
    ∧ splitAttendees (uploadRecord ext header r).participants = uploadParticipants header r
    ∧ Act.Emits
        (fun ev => (∀ row url att, ev = .sendInvite row url att →
            att = uploadParticipants header r)
          ∧ ∀ host body, ev = .post host body → body.attendees = uploadParticipants header r)
        (run ext (.object (optsOf (uploadRecord ext header r) meetingType location))) := by
  have h1 : ∀ text, splitAttendees (joinWith ", ".toList (parseEmails text)) = parseEmails text :=
    fun text => splitAttendees_joinWith _ (parseEmails_trimmed text)
  have h2 : splitAttendees (uploadRecord ext header r).participants
      = uploadParticipants header r := h1 _
  refine ⟨h1, h2, ?_⟩
  have h3 : splitAttendees (optsOf (uploadRecord ext header r) meetingType location).participants
      = uploadParticipants header r := h2
  unfold run runObject
  refine Act.Emits.bind (Act.Emits.emit (by simp)) (fun _ => ?_)
  refine Act.Emits.bind (Act.Emits.call (by simp) _) (fun token => ?_)
  refine Act.Emits.bind (Act.Emits.call (by simp) _) (fun _ => ?_)
  refine Act.Emits.bind ?_ (fun _ => ?_)
  · split
    · exact Act.Emits.call (by simp) _
    · exact Act.Emits.ret _ _
  · rw [h3]
    refine sendInvite_emits ext _ _ _ _ ⟨?_, by simp⟩ (fun row _ => ⟨by simp, ?_⟩)
    · intro row url att he
      injection he with _ _ e3
      exact e3.symm
    · intro host body he
      injection he with _ e2
      rw [← e2]
      rfl

end ZoomBooking
